import Mathlib

/-!
Backend-Status: the update loop of `backend-status-server.go`

A shallow embedding of `readUpdates` (the body of its `for` loop, applied to one
successfully decoded datagram) over finite maps, and the properties of the
registry `World` that follow from it.

Modelling conventions
* Go maps are `Finmap`s (finite, unordered, one value per key; equality is
  extensional).  `m[k] = v` is `Finmap.insert`, `m[k] = nil, false` is
  `Finmap.erase`, `v, ok := m[k]` is `Finmap.lookup`.
* `*Backend` and `*Request` pointers are modelled by value: the backend reached
  through `World[ipport]` is read, rewritten and stored back under the same key.
  A second reading of the same iteration, `readUpdateN`, keeps nil pointers and
  nil maps explicit and can fault; `readUpdateN_represents` relates the two.
* `container/vector.Vector` is a `List`: `Insert(0, x)` is `x :: l`, `Len` is
  `List.length`, `Pop` drops the last element.
* `int` is `Int`, `byte` is `Nat`, `int64` is `Int`, `uint16` is a `Nat` below `2^16`
  (the conversion `uint16(x)` is `x % 2^16`).
* `float64` values are only stored, never computed with; they are carried as
  their bit pattern.
* `time.Nanoseconds()` is an input of the step (`now`).
-/

namespace BackendStatus

/-- A `float64`, carried as its IEEE-754 bit pattern; the zero value is `0.0`. -/
structure Float64 where
  bits : Nat
deriving DecidableEq, Repr

/-- The `float64` zero value. -/
def Float64.zero : Float64 := ⟨0⟩

abbrev RequestId := String
abbrev BackendIpport := String

/-- The wire message `BackendUpdate`. -/
structure BackendUpdate where
  I : Int
  B : String
  C : Nat
  T : Float64
  R : Int
  U : String
deriving DecidableEq, Repr

/-- The record `Request`. -/
structure Request where
  Id : RequestId
  Uri : String
  Time : Float64
  StartTime : Int
  ResponseCode : Nat
deriving DecidableEq, Repr

abbrev RequestMap := Finmap (fun _ : RequestId => Request)
abbrev ReceiverMap := Finmap (fun _ : String => RequestMap)

/-- The record `Backend`. -/
structure Backend where
  Ipport : BackendIpport
  Completed : List Request
  InFlight : ReceiverMap
deriving DecidableEq

abbrev BackendMap := Finmap (fun _ : BackendIpport => Backend)

/-- The initial value of the global `World`: `make(BackendMap)`. -/
def World : BackendMap := ∅

/-- `strconv.Itoa`: the decimal rendering of an integer. -/
def Itoa (i : Int) : String := Int.repr i

/-- The conversion `uint16(x)` of an `int`: the low 16 bits. -/
def uint16 (x : Int) : Nat := (x % 65536).toNat

/-- `&Backend{Ipport: ipport, InFlight: make(ReceiverMap)}`. -/
def newBackend (ipport : BackendIpport) : Backend :=
  { Ipport := ipport, Completed := [], InFlight := ∅ }

/-- `backend, ok := World[ipport]; if !ok { backend = &Backend{...}; World[ipport] = backend }`:
the backend the rest of the iteration works on. -/
def getBackend (W : BackendMap) (ipport : BackendIpport) : Backend :=
  match W.lookup ipport with
  | some backend => backend
  | none => newBackend ipport

/-- `_, ok = backend.InFlight[addrstr]; if !ok { backend.InFlight[addrstr] = make(RequestMap) }`. -/
def ensureReceiver (backend : Backend) (addrstr : String) : Backend :=
  match backend.InFlight.lookup addrstr with
  | some _ => backend
  | none => { backend with InFlight := backend.InFlight.insert addrstr ∅ }

/-- The read `backend.InFlight[addrstr]` (the zero value of a map type reads as empty). -/
def inFlightOf (backend : Backend) (addrstr : String) : RequestMap :=
  (backend.InFlight.lookup addrstr).getD ∅

/-- The write `backend.InFlight[addrstr][k] = ...` seen from the backend:
the request map of `addrstr` is replaced by `m`. -/
def setInFlight (backend : Backend) (addrstr : String) (m : RequestMap) : Backend :=
  { backend with InFlight := backend.InFlight.insert addrstr m }

/-- `backend.Completed.Insert(0, request); if backend.Completed.Len() > 500 { backend.Completed.Pop() }`. -/
def pushCompleted (completed : List Request) (request : Request) : List Request :=
  let inserted := request :: completed
  if inserted.length > 500 then inserted.dropLast else inserted

/-- The `switch update.C` of `readUpdates`, on the backend reached through
`World[ipport]` after the backend and the receiver map exist. -/
def switchUpdate (backend : Backend) (addrstr : String) (now : Int) (reqid : RequestId)
    (update : BackendUpdate) : Backend :=
  match update.C with
  | 1 =>
    let request : Request :=
      { Id := reqid, Uri := update.U, Time := Float64.zero, StartTime := now, ResponseCode := 0 }
    match (inFlightOf backend addrstr).lookup request.Id with
    | some _ => setInFlight backend addrstr ((inFlightOf backend addrstr).erase request.Id)
    | none => setInFlight backend addrstr ((inFlightOf backend addrstr).insert request.Id request)
  | 2 =>
    match (inFlightOf backend addrstr).lookup reqid with
    | none => backend
    | some request0 =>
      let request : Request :=
        { request0 with Time := update.T, ResponseCode := uint16 update.R }
      let backend1 := setInFlight backend addrstr ((inFlightOf backend addrstr).erase request.Id)
      { backend1 with Completed := pushCompleted backend1.Completed request }
  | _ => backend

/-- One iteration of the `for` loop of `readUpdates` on a datagram that was
received from `addrstr` and decoded to `update`, with `now` the reading of
`time.Nanoseconds()`.  The backend is held by pointer in `World[ipport]`, so
every write of the iteration lands in the registry under that key. -/
def readUpdate (W : BackendMap) (addrstr : String) (now : Int) (update : BackendUpdate) :
    BackendMap :=
  if update.B.length = 0 then W
  else
    let ipport : BackendIpport := update.B
    let reqid : RequestId := Itoa update.I
    let backend := getBackend W ipport
    let backend1 := ensureReceiver backend addrstr
    W.insert ipport (switchUpdate backend1 addrstr now reqid update)

/-- A received and decoded datagram: sender address, clock reading, update. -/
structure Datagram where
  addr : String
  now : Int
  update : BackendUpdate
deriving DecidableEq, Repr

/-- The loop of `readUpdates` over the datagrams received so far, in order. -/
def readUpdates (W : BackendMap) (ds : List Datagram) : BackendMap :=
  ds.foldl (fun w d => readUpdate w d.addr d.now d.update) W

/-- The registries the loop can reach from the initial `World`. -/
inductive Reachable : BackendMap → Prop
  | init : Reachable World
  | step {W : BackendMap} (addrstr : String) (now : Int) (update : BackendUpdate) :
      Reachable W → Reachable (readUpdate W addrstr now update)

/-- The `Completed` sequence of a backend, empty when the backend is absent. -/
def completedOf (W : BackendMap) (b : BackendIpport) : List Request :=
  match W.lookup b with
  | some backend => backend.Completed
  | none => []

/-- The request map of sender `s` under backend `b`, empty when absent. -/
def requestsOf (W : BackendMap) (b : BackendIpport) (s : String) : RequestMap :=
  match W.lookup b with
  | some backend => inFlightOf backend s
  | none => ∅

/-- The in-flight entry under `(b, s, k)`, if any. -/
def inFlightAt (W : BackendMap) (b : BackendIpport) (s : String) (k : RequestId) :
    Option Request :=
  (requestsOf W b s).lookup k

/-- The number of in-flight entries of sender `s` under backend `b`. -/
def inFlightCount (W : BackendMap) (b : BackendIpport) (s : String) : Nat :=
  (requestsOf W b s).keys.card

/-- The `Completed` sequences of a registry are all within the capacity. -/
def CompletedBounded (W : BackendMap) : Prop :=
  ∀ b, (completedOf W b).length ≤ 500

/-- Every in-flight request is stored under its own `Id`. -/
def KeyedById (W : BackendMap) : Prop :=
  ∀ b s k r, inFlightAt W b s k = some r → r.Id = k

/-- Every backend of the registry has a non-empty identity. -/
def BackendsNamed (W : BackendMap) : Prop :=
  ∀ b backend, W.lookup b = some backend → b.length ≠ 0

/-- Scenario data: a `started` datagram for request 1 of backend `10.0.0.1:80`. -/
def startOne : Datagram :=
  ⟨"10.0.0.9:5000", 1000, ⟨1, "10.0.0.1:80", 1, Float64.zero, 0, "/x"⟩⟩

/-- Scenario data: the matching `finished` datagram, elapsed `0.5` s, status 200. -/
def finishOne : Datagram :=
  ⟨"10.0.0.9:5000", 2000, ⟨1, "10.0.0.1:80", 2, ⟨4602678819172646912⟩, 200, ""⟩⟩

/-- Scenario data: the in-flight request stored by `startOne`. -/
def requestOne : Request :=
  { Id := "1", Uri := "/x", Time := Float64.zero, StartTime := 1000, ResponseCode := 0 }

/-- Scenario data: `requestOne` once promoted by `finishOne`. -/
def completedOne : Request :=
  { requestOne with Time := ⟨4602678819172646912⟩, ResponseCode := 200 }

/-- Scenario data: the backend entry after `startOne` and `finishOne`. -/
def backendFinished : Backend :=
  { Ipport := "10.0.0.1:80", Completed := [completedOne],
    InFlight := Finmap.singleton "10.0.0.9:5000" ∅ }

/-- Scenario data: the registry after `startOne`. -/
def worldStarted : BackendMap := readUpdates World [startOne]

/-- Scenario data: the registry after `startOne` and `finishOne`. -/
def worldFinished : BackendMap := readUpdates World [startOne, finishOne]

/-- The value of a digit string read left to right (a character reads as its code minus 48,
cut off at zero). -/
def decimalValue (cs : List Char) : Nat :=
  cs.foldl (fun acc c => 10 * acc + (c.toNat - 48)) 0

/-- The `requestSeq` values of the started updates (code 1) of a trace, in order. -/
def startedIds (ds : List Datagram) : List Int :=
  (ds.filter (fun d => d.update.C = 1)).map (fun d => d.update.I)

/-- The `requestSeq` values of the finished updates (code 2) of a trace, in order. -/
def finishedIds (ds : List Datagram) : List Int :=
  (ds.filter (fun d => d.update.C = 2)).map (fun d => d.update.I)

/-- The first started update of the trace that carries `requestSeq` `i`. -/
def startOf (ds : List Datagram) (i : Int) : Option Datagram :=
  ds.find? (fun d => d.update.C = 1 ∧ d.update.I = i)

/-- The in-flight request a started datagram describes. -/
def startRecord (d : Datagram) : Request :=
  { Id := Itoa d.update.I, Uri := d.update.U, Time := Float64.zero, StartTime := d.now,
    ResponseCode := 0 }

/-- Every datagram of the trace is a started or finished update for backend `b` sent by `s`. -/
def OneStream (b : BackendIpport) (s : String) (ds : List Datagram) : Prop :=
  ∀ d ∈ ds, d.addr = s ∧ d.update.B = b ∧ (d.update.C = 1 ∨ d.update.C = 2)

/-- Each finished update of the trace comes after a started update with the same
`requestSeq`. -/
def FinishFollowsStart (ds : List Datagram) : Prop :=
  ∀ n (h : n < ds.length), ds[n].update.C = 2 → ds[n].update.I ∈ startedIds (ds.take n)

/-- The in-flight map of `(b, s)` holds exactly the started and not yet finished requests of
the trace, each under the rendering of its `requestSeq`. -/
def StreamInFlight (b : BackendIpport) (s : String) (ds : List Datagram) (W : BackendMap) :
    Prop :=
  ∀ k r, (requestsOf W b s).lookup k = some r ↔
    ∃ i st, startOf ds i = some st ∧ i ∉ finishedIds ds ∧ k = Itoa i ∧ r = startRecord st

/-- Scenario data: a `started` datagram for request 2 of the same backend and sender. -/
def startTwo : Datagram :=
  ⟨"10.0.0.9:5000", 1500, ⟨2, "10.0.0.1:80", 1, Float64.zero, 0, "/y"⟩⟩

/-- The completed record a finished datagram `f` produces in the trace `ds`: the request
started under the same `requestSeq`, with the elapsed time and status of `f`. -/
def completionOf (ds : List Datagram) (f : Datagram) : Option Request :=
  (startOf ds f.update.I).map fun st =>
    { Id := Itoa f.update.I, Uri := st.update.U, Time := f.update.T, StartTime := st.now,
      ResponseCode := uint16 f.update.R }

/-- The completed records of a trace, in order of completion (oldest first). -/
def completions (ds : List Datagram) : List Request :=
  (ds.filter (fun d => d.update.C = 2)).filterMap (completionOf ds)

/-- Scenario data: the `finished` datagram matching `startTwo`, status 404. -/
def finishTwo : Datagram :=
  ⟨"10.0.0.9:5000", 1800, ⟨2, "10.0.0.1:80", 2, ⟨4607182418800017408⟩, 404, ""⟩⟩

/-- Scenario data: two interleaved start+finish pairs of one sender on one backend. -/
def twoPairs : List Datagram := [startOne, startTwo, finishTwo, finishOne]

/-- The `(backend, requestSeq)` pairs of the started updates of a trace that pass the
loop's check on the backend identity, in order. -/
def startedKeys (ds : List Datagram) : List (BackendIpport × Int) :=
  (ds.filter (fun d => d.update.C = 1 ∧ d.update.B.length ≠ 0)).map
    (fun d => (d.update.B, d.update.I))

/-- Bookkeeping of request ids along a trace `ds` that led to `W`: every in-flight request is
stored under its `Id`, which renders the `requestSeq` of a started update of the trace for
that backend; so does the `Id` of every completed record; no in-flight `Id` occurs in the
backend's `Completed`; and no key is in flight under two senders of one backend. -/
def IdsTracked (ds : List Datagram) (W : BackendMap) : Prop :=
  (∀ b s k r, inFlightAt W b s k = some r →
    r.Id = k ∧ ∃ i, k = Itoa i ∧ (b, i) ∈ startedKeys ds) ∧
  (∀ b c, c ∈ completedOf W b → ∃ i, c.Id = Itoa i ∧ (b, i) ∈ startedKeys ds) ∧
  (∀ b s k r, inFlightAt W b s k = some r → ∀ c ∈ completedOf W b, c.Id ≠ r.Id) ∧
  (∀ b s1 s2 k r1 r2, inFlightAt W b s1 k = some r1 → inFlightAt W b s2 k = some r2 → s1 = s2)

/-- Scenario data: request 1 started again by the same sender after its completion. -/
def startOneAgain : Datagram :=
  ⟨"10.0.0.9:5000", 3000, ⟨1, "10.0.0.1:80", 1, Float64.zero, 0, "/z"⟩⟩

/-- Every backend entry of the registry records its own key as `Ipport`. -/
def IpportIsKey (W : BackendMap) : Prop :=
  ∀ b backend, W.lookup b = some backend → backend.Ipport = b

/-- The record `JsonWorld`: the document served on `/world.json`. -/
structure JsonWorld where
  CurrentTime : Int
  World : BackendMap

/-- What one call of the handler `writeWorld` does: it either ends the process through
`log.Fatalf` (the message is logged and the program exits with status 1), or sets the
response headers and writes the body. -/
inductive Served where
  | fatal (message : String)
  | written (headers : List (String × String)) (body : List Nat)
deriving DecidableEq, Repr

/-- The handler `writeWorld`.  `Marshal` stands for the library function `json.Marshal`
(bytes or an error), `W` for the registry `World` read by the handler and `now` for
`time.Nanoseconds()`. -/
def writeWorld (Marshal : JsonWorld → Except String (List Nat)) (W : BackendMap) (now : Int) :
    Served :=
  let world : JsonWorld := { World := W, CurrentTime := now }
  match Marshal world with
  | .error err => Served.fatal ("Error writing JSON: " ++ err)
  | .ok bytes =>
    Served.written
      [("Access-Control-Allow-Origin", "*"), ("Access-Control-Max-Age", "3600")] bytes

/-! ## The same iteration with nil pointers and nil maps made explicit -/

/-- How an iteration can abort instead of returning to the receive loop: a field access
through a nil `*Backend` or `*Request`, or a store or delete through a nil map (every such
map operation is counted as a fault). -/
inductive Fault where
  | nilDereference
  | nilMapWrite
deriving DecidableEq, Repr

/-- What an iteration prints with `log.Print`/`log.Printf` before it goes on. -/
inductive LogLine where
  | invalidStructure
  | duplicateId (id : RequestId)
  | unknownId (id : RequestId)
  | unknownType (c : Nat)
deriving DecidableEq, Repr

/-- A `RequestMap` as a Go value: `none` is the nil map, and each value is a `*Request`
that may be nil. -/
abbrev RequestMapN := Option (Finmap (fun _ : RequestId => Option Request))

/-- A `ReceiverMap` as a Go value: `none` is the nil map. -/
abbrev ReceiverMapN := Option (Finmap (fun _ : String => RequestMapN))

/-- The record `Backend`, with its maps as Go values. -/
structure BackendN where
  Ipport : BackendIpport
  Completed : List Request
  InFlight : ReceiverMapN
deriving DecidableEq

/-- The registry as a Go value: each entry is a `*Backend` that may be nil. -/
abbrev BackendMapN := Finmap (fun _ : BackendIpport => Option BackendN)

/-- The initial registry `make(BackendMap)`. -/
def WorldN : BackendMapN := ∅

/-- The read `backend.InFlight[addrstr]`: a missing key and a nil map both read as the
nil map. -/
def requestsN (backend : BackendN) (addrstr : String) : RequestMapN :=
  match backend.InFlight with
  | none => none
  | some receivers =>
    match receivers.lookup addrstr with
    | some requests => requests
    | none => none

/-- The read `request, ok := requests[k]`: `none` is `ok = false`, `some p` is `ok = true`
with the stored pointer `p`. -/
def lookupN (requests : RequestMapN) (k : RequestId) : Option (Option Request) :=
  match requests with
  | none => none
  | some m => m.lookup k

/-- `_, ok = backend.InFlight[addrstr]; if !ok { backend.InFlight[addrstr] = make(RequestMap) }`. -/
def ensureReceiverN (backend : BackendN) (addrstr : String) : Except Fault BackendN :=
  match backend.InFlight with
  | none => Except.error Fault.nilMapWrite
  | some receivers =>
    match receivers.lookup addrstr with
    | some _ => Except.ok backend
    | none => Except.ok { backend with InFlight := some (receivers.insert addrstr (some ∅)) }

/-- The store `backend.InFlight[addrstr][k] = request`. -/
def storeN (backend : BackendN) (addrstr : String) (k : RequestId) (request : Option Request) :
    Except Fault BackendN :=
  match backend.InFlight with
  | none => Except.error Fault.nilMapWrite
  | some receivers =>
    match receivers.lookup addrstr with
    | some (some m) =>
      Except.ok { backend with InFlight := some (receivers.insert addrstr (some (m.insert k request))) }
    | _ => Except.error Fault.nilMapWrite

/-- The delete `backend.InFlight[addrstr][k] = nil, false`. -/
def deleteN (backend : BackendN) (addrstr : String) (k : RequestId) : Except Fault BackendN :=
  match backend.InFlight with
  | none => Except.error Fault.nilMapWrite
  | some receivers =>
    match receivers.lookup addrstr with
    | some (some m) =>
      Except.ok { backend with InFlight := some (receivers.insert addrstr (some (m.erase k))) }
    | _ => Except.error Fault.nilMapWrite

/-- The `switch update.C` with every pointer and map access checked. -/
def switchUpdateN (backend : BackendN) (addrstr : String) (now : Int) (reqid : RequestId)
    (update : BackendUpdate) : Except Fault (BackendN × Option LogLine) :=
  match update.C with
  | 1 =>
    let request : Request :=
      { Id := reqid, Uri := update.U, Time := Float64.zero, StartTime := now, ResponseCode := 0 }
    match lookupN (requestsN backend addrstr) request.Id with
    | some _ =>
      match deleteN backend addrstr request.Id with
      | Except.error f => Except.error f
      | Except.ok backend1 => Except.ok (backend1, some (LogLine.duplicateId request.Id))
    | none =>
      match storeN backend addrstr request.Id (some request) with
      | Except.error f => Except.error f
      | Except.ok backend1 => Except.ok (backend1, none)
  | 2 =>
    match lookupN (requestsN backend addrstr) reqid with
    | none => Except.ok (backend, some (LogLine.unknownId reqid))
    | some none => Except.error Fault.nilDereference
    | some (some request0) =>
      let request : Request :=
        { request0 with Time := update.T, ResponseCode := uint16 update.R }
      match deleteN backend addrstr request.Id with
      | Except.error f => Except.error f
      | Except.ok backend1 =>
        Except.ok ({ backend1 with Completed := pushCompleted backend1.Completed request }, none)
  | c => Except.ok (backend, some (LogLine.unknownType c))

/-- One iteration of the loop of `readUpdates` on a decoded datagram, with every pointer and
map access checked: the registry and the log line it leaves, or the fault that stops it. -/
def readUpdateN (W : BackendMapN) (addrstr : String) (now : Int) (update : BackendUpdate) :
    Except Fault (BackendMapN × Option LogLine) :=
  if update.B.length = 0 then Except.ok (W, some LogLine.invalidStructure)
  else
    let ipport : BackendIpport := update.B
    let reqid : RequestId := Itoa update.I
    let pointer : Option BackendN :=
      match W.lookup ipport with
      | some p => p
      | none => some { Ipport := ipport, Completed := [], InFlight := some ∅ }
    match pointer with
    | none => Except.error Fault.nilDereference
    | some backend =>
      match ensureReceiverN backend addrstr with
      | Except.error f => Except.error f
      | Except.ok backend1 =>
        match switchUpdateN backend1 addrstr now reqid update with
        | Except.error f => Except.error f
        | Except.ok (backend2, line) => Except.ok (W.insert ipport (some backend2), line)

/-- The registries the checked loop can reach from the initial registry. -/
inductive ReachableN : BackendMapN → Prop
  | init : ReachableN WorldN
  | step {W W1 : BackendMapN} {line : Option LogLine} (addrstr : String) (now : Int)
      (update : BackendUpdate) :
      ReachableN W → readUpdateN W addrstr now update = Except.ok (W1, line) → ReachableN W1

/-- A request map that is not nil and holds no nil request. -/
def SoundRequests (requests : RequestMapN) : Prop :=
  ∃ m, requests = some m ∧ ∀ k p, m.lookup k = some p → p ≠ none

/-- A backend whose in-flight map is not nil and holds only sound request maps. -/
def SoundBackend (backend : BackendN) : Prop :=
  ∃ receivers, backend.InFlight = some receivers ∧
    ∀ s requests, receivers.lookup s = some requests → SoundRequests requests

/-- A registry that holds no nil backend and only sound backends. -/
def SoundWorld (W : BackendMapN) : Prop :=
  ∀ b p, W.lookup b = some p → ∃ backend, p = some backend ∧ SoundBackend backend

/-- Scenario data: the checked registry after `startOne`. -/
def worldStartedN : BackendMapN :=
  Finmap.singleton "10.0.0.1:80"
    (some { Ipport := "10.0.0.1:80", Completed := [],
            InFlight := some (Finmap.singleton "10.0.0.9:5000"
              (some (Finmap.singleton "1" (some requestOne)))) })

/-- The checked request map `requests` holds the same requests as `m`, none of them nil. -/
def ReprRequests (requests : RequestMapN) (m : RequestMap) : Prop :=
  ∃ mN, requests = some mN ∧ ∀ k, mN.lookup k = (m.lookup k).map some

/-- The checked backend `backendN` is the backend `backend` with all its maps built. -/
def ReprBackend (backendN : BackendN) (backend : Backend) : Prop :=
  backendN.Ipport = backend.Ipport ∧ backendN.Completed = backend.Completed ∧
  ∃ receivers, backendN.InFlight = some receivers ∧
    ∀ s, (receivers.lookup s = none ∧ backend.InFlight.lookup s = none) ∨
      ∃ requests m, receivers.lookup s = some requests ∧ backend.InFlight.lookup s = some m ∧
        ReprRequests requests m

/-- The checked registry `WN` is the registry `W` with no nil pointer in it. -/
def Represents (WN : BackendMapN) (W : BackendMap) : Prop :=
  ∀ b, (WN.lookup b = none ∧ W.lookup b = none) ∨
    ∃ backendN backend, WN.lookup b = some (some backendN) ∧ W.lookup b = some backend ∧
      ReprBackend backendN backend

/-! ## Finite-map facts -/

theorem finmap_insert_lookup_self {K V : Type} [DecidableEq K] (m : Finmap (fun _ : K => V))
    (k : K) (v : V) (h : m.lookup k = some v) : m.insert k v = m := by
  apply Finmap.ext_lookup
  intro x
  by_cases hx : x = k
  · subst hx; rw [Finmap.lookup_insert, h]
  · rw [Finmap.lookup_insert_of_ne _ hx]

theorem finmap_card_insert {K V : Type} [DecidableEq K] (m : Finmap (fun _ : K => V))
    (k : K) (v : V) (h : m.lookup k = none) : (m.insert k v).keys.card = m.keys.card + 1 := by
  have hk : k ∉ m.keys := by
    rw [Finmap.mem_keys]; exact Finmap.lookup_eq_none.mp h
  have : (m.insert k v).keys = insert k m.keys := by
    ext x
    simp [Finmap.mem_keys, Finmap.mem_insert]
  rw [this, Finset.card_insert_of_not_mem hk]

theorem finmap_card_erase {K V : Type} [DecidableEq K] (m : Finmap (fun _ : K => V))
    (k : K) (v : V) (h : m.lookup k = some v) : (m.erase k).keys.card + 1 = m.keys.card := by
  have hk : k ∈ m.keys := by
    rw [Finmap.mem_keys]; exact Finmap.mem_of_lookup_eq_some h
  rw [Finmap.keys_erase, Finset.card_erase_of_mem hk]
  have : 0 < m.keys.card := Finset.card_pos.mpr ⟨k, hk⟩
  omega

/-! ## The step, unfolded -/

theorem readUpdate_empty_B (W : BackendMap) (a : String) (now : Int) (u : BackendUpdate)
    (h : u.B.length = 0) : readUpdate W a now u = W := by
  simp [readUpdate, h]

theorem lookup_readUpdate_self (W : BackendMap) (a : String) (now : Int) (u : BackendUpdate)
    (h : u.B.length ≠ 0) :
    (readUpdate W a now u).lookup u.B
      = some (switchUpdate (ensureReceiver (getBackend W u.B) a) a now (Itoa u.I) u) := by
  simp [readUpdate, h]

theorem lookup_readUpdate_of_ne (W : BackendMap) (a : String) (now : Int) (u : BackendUpdate)
    (b : BackendIpport) (h : b ≠ u.B) : (readUpdate W a now u).lookup b = W.lookup b := by
  unfold readUpdate
  split
  · rfl
  · simp [Finmap.lookup_insert_of_ne _ h]

/-! ## The pieces of the step -/

theorem completed_getBackend (W : BackendMap) (b : BackendIpport) :
    (getBackend W b).Completed = completedOf W b := by
  unfold getBackend completedOf
  cases W.lookup b <;> rfl

theorem inFlightOf_getBackend (W : BackendMap) (b : BackendIpport) (s : String) :
    inFlightOf (getBackend W b) s = requestsOf W b s := by
  unfold getBackend requestsOf
  cases W.lookup b with
  | none => simp [inFlightOf, newBackend]
  | some be => rfl

theorem completed_ensureReceiver (be : Backend) (a : String) :
    (ensureReceiver be a).Completed = be.Completed := by
  unfold ensureReceiver
  cases be.InFlight.lookup a <;> rfl

theorem inFlightOf_ensureReceiver (be : Backend) (a s : String) :
    inFlightOf (ensureReceiver be a) s = inFlightOf be s := by
  unfold ensureReceiver
  cases h : be.InFlight.lookup a with
  | some m => rfl
  | none =>
    by_cases hs : s = a
    · subst hs; simp [inFlightOf, h]
    · simp [inFlightOf, Finmap.lookup_insert_of_ne _ hs]

theorem inFlightOf_setInFlight_self (be : Backend) (a : String) (m : RequestMap) :
    inFlightOf (setInFlight be a m) a = m := by
  simp [inFlightOf, setInFlight]

theorem inFlightOf_setInFlight_of_ne (be : Backend) (a s : String) (m : RequestMap)
    (h : s ≠ a) : inFlightOf (setInFlight be a m) s = inFlightOf be s := by
  simp [inFlightOf, setInFlight, Finmap.lookup_insert_of_ne _ h]

theorem switchUpdate_start_dup (be : Backend) (a : String) (now : Int) (k : RequestId)
    (u : BackendUpdate) (r : Request) (hC : u.C = 1) (h : (inFlightOf be a).lookup k = some r) :
    switchUpdate be a now k u = setInFlight be a ((inFlightOf be a).erase k) := by
  simp [switchUpdate, hC, h]

theorem switchUpdate_start_new (be : Backend) (a : String) (now : Int) (k : RequestId)
    (u : BackendUpdate) (hC : u.C = 1) (h : (inFlightOf be a).lookup k = none) :
    switchUpdate be a now k u
      = setInFlight be a ((inFlightOf be a).insert k
          { Id := k, Uri := u.U, Time := Float64.zero, StartTime := now, ResponseCode := 0 }) := by
  simp [switchUpdate, hC, h]

theorem switchUpdate_finish_none (be : Backend) (a : String) (now : Int) (k : RequestId)
    (u : BackendUpdate) (hC : u.C = 2) (h : (inFlightOf be a).lookup k = none) :
    switchUpdate be a now k u = be := by
  simp [switchUpdate, hC, h]

theorem switchUpdate_finish_some (be : Backend) (a : String) (now : Int) (k : RequestId)
    (u : BackendUpdate) (r : Request) (hC : u.C = 2) (h : (inFlightOf be a).lookup k = some r) :
    switchUpdate be a now k u
      = { setInFlight be a ((inFlightOf be a).erase r.Id) with
          Completed := pushCompleted be.Completed
            { r with Time := u.T, ResponseCode := uint16 u.R } } := by
  simp [switchUpdate, hC, h, setInFlight]

theorem switchUpdate_other (be : Backend) (a : String) (now : Int) (k : RequestId)
    (u : BackendUpdate) (h1 : u.C ≠ 1) (h2 : u.C ≠ 2) : switchUpdate be a now k u = be := by
  unfold switchUpdate
  split
  · exact absurd (by assumption) h1
  · exact absurd (by assumption) h2
  · rfl

/-- The three shapes the `Completed` sequence can take after the `switch`. -/
theorem completed_switchUpdate (be : Backend) (a : String) (now : Int) (k : RequestId)
    (u : BackendUpdate) :
    (switchUpdate be a now k u).Completed = be.Completed ∨
    ∃ r, u.C = 2 ∧ (inFlightOf be a).lookup k = some r ∧
      (switchUpdate be a now k u).Completed
        = pushCompleted be.Completed { r with Time := u.T, ResponseCode := uint16 u.R } := by
  by_cases h1 : u.C = 1
  · left
    cases h : (inFlightOf be a).lookup k with
    | none => rw [switchUpdate_start_new be a now k u h1 h]; rfl
    | some r => rw [switchUpdate_start_dup be a now k u r h1 h]; rfl
  · by_cases h2 : u.C = 2
    · cases h : (inFlightOf be a).lookup k with
      | none => left; rw [switchUpdate_finish_none be a now k u h2 h]
      | some r =>
        right
        exact ⟨r, h2, rfl, by rw [switchUpdate_finish_some be a now k u r h2 h]⟩
    · left; rw [switchUpdate_other be a now k u h1 h2]

theorem pushCompleted_eq_take (l : List Request) (r : Request) (h : l.length ≤ 500) :
    pushCompleted l r = (r :: l).take 500 := by
  unfold pushCompleted
  by_cases hl : l.length = 500
  · have h1 : (r :: l).length > 500 := by simp [hl]
    simp only [h1, if_true]
    rw [List.dropLast_eq_take]
    simp [hl]
  · have h1 : ¬ (r :: l).length > 500 := by simp; omega
    simp only [h1, if_false]
    rw [List.take_of_length_le]
    simp; omega

theorem pushCompleted_length_le (l : List Request) (r : Request) (h : l.length ≤ 500) :
    (pushCompleted l r).length ≤ 500 := by
  rw [pushCompleted_eq_take l r h]
  simp

/-! ## The step seen through `completedOf` and `requestsOf` -/

theorem completedOf_readUpdate_of_ne (W : BackendMap) (a : String) (now : Int)
    (u : BackendUpdate) (b : BackendIpport) (h : b ≠ u.B) :
    completedOf (readUpdate W a now u) b = completedOf W b := by
  unfold completedOf
  rw [lookup_readUpdate_of_ne W a now u b h]

theorem completedOf_readUpdate_self (W : BackendMap) (a : String) (now : Int)
    (u : BackendUpdate) (h : u.B.length ≠ 0) :
    completedOf (readUpdate W a now u) u.B
      = (switchUpdate (ensureReceiver (getBackend W u.B) a) a now (Itoa u.I) u).Completed := by
  unfold completedOf
  rw [lookup_readUpdate_self W a now u h]

theorem requestsOf_readUpdate_of_ne (W : BackendMap) (a : String) (now : Int)
    (u : BackendUpdate) (b : BackendIpport) (s : String) (h : b ≠ u.B) :
    requestsOf (readUpdate W a now u) b s = requestsOf W b s := by
  unfold requestsOf
  rw [lookup_readUpdate_of_ne W a now u b h]

theorem requestsOf_readUpdate_self (W : BackendMap) (a : String) (now : Int)
    (u : BackendUpdate) (s : String) (h : u.B.length ≠ 0) :
    requestsOf (readUpdate W a now u) u.B s
      = inFlightOf (switchUpdate (ensureReceiver (getBackend W u.B) a) a now (Itoa u.I) u) s := by
  unfold requestsOf
  rw [lookup_readUpdate_self W a now u h]

theorem inFlightOf_prepared (W : BackendMap) (b : BackendIpport) (a s : String) :
    inFlightOf (ensureReceiver (getBackend W b) a) s = requestsOf W b s := by
  rw [inFlightOf_ensureReceiver, inFlightOf_getBackend]

theorem completed_prepared (W : BackendMap) (b : BackendIpport) (a : String) :
    (ensureReceiver (getBackend W b) a).Completed = completedOf W b := by
  rw [completed_ensureReceiver, completed_getBackend]

theorem inFlightOf_switchUpdate_of_ne (be : Backend) (a s : String) (now : Int)
    (k : RequestId) (u : BackendUpdate) (h : s ≠ a) :
    inFlightOf (switchUpdate be a now k u) s = inFlightOf be s := by
  by_cases h1 : u.C = 1
  · cases hl : (inFlightOf be a).lookup k with
    | none =>
      rw [switchUpdate_start_new be a now k u h1 hl, inFlightOf_setInFlight_of_ne _ _ _ _ h]
    | some r =>
      rw [switchUpdate_start_dup be a now k u r h1 hl, inFlightOf_setInFlight_of_ne _ _ _ _ h]
  · by_cases h2 : u.C = 2
    · cases hl : (inFlightOf be a).lookup k with
      | none => rw [switchUpdate_finish_none be a now k u h2 hl]
      | some r =>
        rw [switchUpdate_finish_some be a now k u r h2 hl]
        exact inFlightOf_setInFlight_of_ne _ _ _ _ h
    · rw [switchUpdate_other be a now k u h1 h2]

/-- Frame: the request maps of the other senders of the backend are untouched. -/
theorem requestsOf_readUpdate_of_ne_sender (W : BackendMap) (a : String) (now : Int)
    (u : BackendUpdate) (b : BackendIpport) (s : String) (h : s ≠ a) :
    requestsOf (readUpdate W a now u) b s = requestsOf W b s := by
  by_cases hB : u.B.length = 0
  · rw [readUpdate_empty_B W a now u hB]
  by_cases hb : b = u.B
  · subst hb
    rw [requestsOf_readUpdate_self W a now u s hB, inFlightOf_switchUpdate_of_ne _ _ _ _ _ _ h,
      inFlightOf_prepared]
  · exact requestsOf_readUpdate_of_ne W a now u b s hb

/-- A `started` update whose key is free: the request is stored, nothing is promoted. -/
theorem readUpdate_start_new (W : BackendMap) (a : String) (now : Int) (u : BackendUpdate)
    (hB : u.B.length ≠ 0) (hC : u.C = 1)
    (h : (requestsOf W u.B a).lookup (Itoa u.I) = none) :
    requestsOf (readUpdate W a now u) u.B a
        = (requestsOf W u.B a).insert (Itoa u.I)
            { Id := Itoa u.I, Uri := u.U, Time := Float64.zero, StartTime := now,
              ResponseCode := 0 } ∧
      completedOf (readUpdate W a now u) u.B = completedOf W u.B := by
  have h0 : (inFlightOf (ensureReceiver (getBackend W u.B) a) a).lookup (Itoa u.I) = none := by
    rw [inFlightOf_prepared]; exact h
  rw [requestsOf_readUpdate_self W a now u a hB, completedOf_readUpdate_self W a now u hB,
    switchUpdate_start_new _ a now _ u hC h0, inFlightOf_setInFlight_self, inFlightOf_prepared]
  exact ⟨rfl, completed_prepared W u.B a⟩

/-- A `started` update whose key is taken: the occupant is removed, nothing is promoted. -/
theorem readUpdate_start_dup (W : BackendMap) (a : String) (now : Int) (u : BackendUpdate)
    (r : Request) (hB : u.B.length ≠ 0) (hC : u.C = 1)
    (h : (requestsOf W u.B a).lookup (Itoa u.I) = some r) :
    requestsOf (readUpdate W a now u) u.B a = (requestsOf W u.B a).erase (Itoa u.I) ∧
      completedOf (readUpdate W a now u) u.B = completedOf W u.B := by
  have h0 : (inFlightOf (ensureReceiver (getBackend W u.B) a) a).lookup (Itoa u.I) = some r := by
    rw [inFlightOf_prepared]; exact h
  rw [requestsOf_readUpdate_self W a now u a hB, completedOf_readUpdate_self W a now u hB,
    switchUpdate_start_dup _ a now _ u r hC h0, inFlightOf_setInFlight_self, inFlightOf_prepared]
  exact ⟨rfl, completed_prepared W u.B a⟩

/-- A `finished` update with no in-flight entry: no request and no history changes. -/
theorem readUpdate_finish_none (W : BackendMap) (a : String) (now : Int) (u : BackendUpdate)
    (hC : u.C = 2) (h : (requestsOf W u.B a).lookup (Itoa u.I) = none)
    (b : BackendIpport) (s : String) :
    requestsOf (readUpdate W a now u) b s = requestsOf W b s ∧
      completedOf (readUpdate W a now u) b = completedOf W b := by
  by_cases hB : u.B.length = 0
  · rw [readUpdate_empty_B W a now u hB]; exact ⟨rfl, rfl⟩
  by_cases hb : b = u.B
  · subst hb
    have h0 : (inFlightOf (ensureReceiver (getBackend W u.B) a) a).lookup (Itoa u.I) = none := by
      rw [inFlightOf_prepared]; exact h
    rw [requestsOf_readUpdate_self W a now u s hB, completedOf_readUpdate_self W a now u hB,
      switchUpdate_finish_none _ a now _ u hC h0, inFlightOf_prepared]
    exact ⟨rfl, completed_prepared W u.B a⟩
  · exact ⟨requestsOf_readUpdate_of_ne W a now u b s hb,
      completedOf_readUpdate_of_ne W a now u b hb⟩

/-- A matched `finished` update: the entry is removed under its stored `Id` and promoted. -/
theorem readUpdate_finish_some (W : BackendMap) (a : String) (now : Int) (u : BackendUpdate)
    (r : Request) (hB : u.B.length ≠ 0) (hC : u.C = 2)
    (h : (requestsOf W u.B a).lookup (Itoa u.I) = some r) :
    requestsOf (readUpdate W a now u) u.B a = (requestsOf W u.B a).erase r.Id ∧
      completedOf (readUpdate W a now u) u.B
        = pushCompleted (completedOf W u.B)
            { r with Time := u.T, ResponseCode := uint16 u.R } := by
  have h0 : (inFlightOf (ensureReceiver (getBackend W u.B) a) a).lookup (Itoa u.I) = some r := by
    rw [inFlightOf_prepared]; exact h
  rw [requestsOf_readUpdate_self W a now u a hB, completedOf_readUpdate_self W a now u hB,
    switchUpdate_finish_some _ a now _ u r hC h0]
  constructor
  · show inFlightOf (setInFlight _ a _) a = _
    rw [inFlightOf_setInFlight_self, inFlightOf_prepared]
  · show pushCompleted (ensureReceiver (getBackend W u.B) a).Completed _ = _
    rw [completed_prepared]

/-- An update of any other kind: no request and no history changes. -/
theorem readUpdate_other (W : BackendMap) (a : String) (now : Int) (u : BackendUpdate)
    (h1 : u.C ≠ 1) (h2 : u.C ≠ 2) (b : BackendIpport) (s : String) :
    requestsOf (readUpdate W a now u) b s = requestsOf W b s ∧
      completedOf (readUpdate W a now u) b = completedOf W b := by
  by_cases hB : u.B.length = 0
  · rw [readUpdate_empty_B W a now u hB]; exact ⟨rfl, rfl⟩
  by_cases hb : b = u.B
  · subst hb
    rw [requestsOf_readUpdate_self W a now u s hB, completedOf_readUpdate_self W a now u hB,
      switchUpdate_other _ a now _ u h1 h2, inFlightOf_prepared]
    exact ⟨rfl, completed_prepared W u.B a⟩
  · exact ⟨requestsOf_readUpdate_of_ne W a now u b s hb,
      completedOf_readUpdate_of_ne W a now u b hb⟩

theorem completedBounded_World : CompletedBounded World := by
  intro b
  simp [completedOf, World]

theorem completedBounded_readUpdate (W : BackendMap) (a : String) (now : Int)
    (u : BackendUpdate) (h : CompletedBounded W) : CompletedBounded (readUpdate W a now u) := by
  intro b
  by_cases hB : u.B.length = 0
  · rw [readUpdate_empty_B W a now u hB]; exact h b
  by_cases hb : b = u.B
  · subst hb
    rw [completedOf_readUpdate_self W a now u hB]
    have h0 : (ensureReceiver (getBackend W u.B) a).Completed = completedOf W u.B := by
      rw [completed_ensureReceiver, completed_getBackend]
    rcases completed_switchUpdate (ensureReceiver (getBackend W u.B) a) a now (Itoa u.I) u with
      hc | ⟨r, _, _, hc⟩
    · rw [hc, h0]; exact h u.B
    · rw [hc, h0]; exact pushCompleted_length_le _ _ (h u.B)
  · rw [completedOf_readUpdate_of_ne W a now u b hb]; exact h b

theorem completedBounded_readUpdates (ds : List Datagram) (W : BackendMap)
    (h : CompletedBounded W) : CompletedBounded (readUpdates W ds) := by
  induction ds generalizing W with
  | nil => exact h
  | cons d ds ih =>
    exact ih (readUpdate W d.addr d.now d.update) (completedBounded_readUpdate W _ _ _ h)

theorem reachable_readUpdates (ds : List Datagram) (W : BackendMap) (h : Reachable W) :
    Reachable (readUpdates W ds) := by
  induction ds generalizing W with
  | nil => exact h
  | cons d ds ih => exact ih _ (Reachable.step d.addr d.now d.update h)

theorem reachable_iff (W : BackendMap) : Reachable W ↔ ∃ ds, readUpdates World ds = W := by
  constructor
  · intro h
    induction h with
    | init => exact ⟨[], rfl⟩
    | step a now u _ ih =>
      obtain ⟨ds, rfl⟩ := ih
      exact ⟨ds ++ [⟨a, now, u⟩], by simp [readUpdates, List.foldl_append]⟩
  · rintro ⟨ds, rfl⟩
    exact reachable_readUpdates ds World Reachable.init

theorem completedBounded_of_reachable (W : BackendMap) (h : Reachable W) : CompletedBounded W := by
  induction h with
  | init => exact completedBounded_World
  | step a now u _ ih => exact completedBounded_readUpdate _ a now u ih

/-! ## Stored under its own `Id` -/

theorem keyedById_World : KeyedById World := by
  intro b s k r h
  simp [inFlightAt, requestsOf, World] at h

theorem keyedById_readUpdate (W : BackendMap) (a : String) (now : Int)
    (u : BackendUpdate) (h : KeyedById W) : KeyedById (readUpdate W a now u) := by
  intro b s k r hr
  unfold inFlightAt at hr
  by_cases hB : u.B.length = 0
  · rw [readUpdate_empty_B W a now u hB] at hr; exact h b s k r hr
  by_cases hb : b = u.B
  swap
  · rw [requestsOf_readUpdate_of_ne W a now u b s hb] at hr; exact h b s k r hr
  subst hb
  by_cases hs : s = a
  swap
  · rw [requestsOf_readUpdate_of_ne_sender W a now u _ s hs] at hr; exact h _ s k r hr
  subst hs
  by_cases h1 : u.C = 1
  · cases hl : (requestsOf W u.B s).lookup (Itoa u.I) with
    | none =>
      rw [(readUpdate_start_new W s now u hB h1 hl).1] at hr
      by_cases hk : k = Itoa u.I
      · subst hk
        rw [Finmap.lookup_insert] at hr
        cases hr; rfl
      · rw [Finmap.lookup_insert_of_ne _ hk] at hr; exact h _ s k r hr
    | some r0 =>
      rw [(readUpdate_start_dup W s now u r0 hB h1 hl).1] at hr
      by_cases hk : k = Itoa u.I
      · subst hk; rw [Finmap.lookup_erase] at hr; cases hr
      · rw [Finmap.lookup_erase_ne hk] at hr; exact h _ s k r hr
  · by_cases h2 : u.C = 2
    · cases hl : (requestsOf W u.B s).lookup (Itoa u.I) with
      | none =>
        rw [(readUpdate_finish_none W s now u h2 hl u.B s).1] at hr; exact h _ s k r hr
      | some r0 =>
        rw [(readUpdate_finish_some W s now u r0 hB h2 hl).1] at hr
        by_cases hk : k = r0.Id
        · subst hk; rw [Finmap.lookup_erase] at hr; cases hr
        · rw [Finmap.lookup_erase_ne hk] at hr; exact h _ s k r hr
    · rw [(readUpdate_other W s now u h1 h2 u.B s).1] at hr; exact h _ s k r hr

theorem keyedById_of_reachable (W : BackendMap) (h : Reachable W) : KeyedById W := by
  induction h with
  | init => exact keyedById_World
  | step a now u _ ih => exact keyedById_readUpdate _ a now u ih

/-! ## Backends have names -/

theorem backendsNamed_readUpdate (W : BackendMap) (a : String) (now : Int)
    (u : BackendUpdate) (h : BackendsNamed W) : BackendsNamed (readUpdate W a now u) := by
  intro b be hb
  by_cases hB : u.B.length = 0
  · rw [readUpdate_empty_B W a now u hB] at hb; exact h b be hb
  by_cases hbb : b = u.B
  · subst hbb; exact hB
  · rw [lookup_readUpdate_of_ne W a now u b hbb] at hb; exact h b be hb

theorem backendsNamed_of_reachable (W : BackendMap) (h : Reachable W) : BackendsNamed W := by
  induction h with
  | init =>
    intro b be hb
    simp [World] at hb
  | step a now u _ ih => exact backendsNamed_readUpdate _ a now u ih

theorem named_of_inFlightAt (W : BackendMap) (h : BackendsNamed W) (b : BackendIpport)
    (s : String) (k : RequestId) (r : Request) (hr : inFlightAt W b s k = some r) :
    b.length ≠ 0 := by
  unfold inFlightAt requestsOf at hr
  cases hb : W.lookup b with
  | none => rw [hb] at hr; simp at hr
  | some be => exact h b be hb

theorem reachable_worldStarted : Reachable worldStarted :=
  reachable_readUpdates _ _ Reachable.init

theorem reachable_worldFinished : Reachable worldFinished :=
  reachable_readUpdates _ _ Reachable.init

theorem head?_pushCompleted (l : List Request) (r : Request) :
    (pushCompleted l r).head? = some r := by
  simp only [pushCompleted]
  split
  · cases l with
    | nil => simp at *
    | cons x xs => simp
  · rfl

/-! ## `Itoa` is injective -/

theorem digitChar_toNat (d : Nat) (h : d < 10) : (Nat.digitChar d).toNat - 48 = d := by
  interval_cases d <;> decide

theorem digitChar_ne_minus (d : Nat) (h : d < 10) : Nat.digitChar d ≠ '-' := by
  interval_cases d <;> decide

theorem foldl_toDigitsCore (fuel n : Nat) (ds : List Char) (h : n < fuel) :
    (Nat.toDigitsCore 10 fuel n ds).foldl (fun acc c => 10 * acc + (c.toNat - 48)) 0
      = ds.foldl (fun acc c => 10 * acc + (c.toNat - 48)) n := by
  induction fuel generalizing n ds with
  | zero => omega
  | succ fuel ih =>
    have hd := digitChar_toNat (n % 10) (Nat.mod_lt _ (by decide))
    unfold Nat.toDigitsCore
    by_cases h0 : n / 10 = 0
    · simp only [h0, if_true, List.foldl_cons, hd]
      congr 1
      omega
    · simp only [h0, if_false]
      rw [ih (n / 10) _ (by omega)]
      simp only [List.foldl_cons, hd]
      congr 1
      omega

theorem mem_toDigitsCore (fuel n : Nat) (ds : List Char) (c : Char)
    (h : c ∈ Nat.toDigitsCore 10 fuel n ds) : c ∈ ds ∨ ∃ d, d < 10 ∧ c = Nat.digitChar d := by
  induction fuel generalizing n ds with
  | zero => left; simpa [Nat.toDigitsCore] using h
  | succ fuel ih =>
    unfold Nat.toDigitsCore at h
    by_cases h0 : n / 10 = 0
    · simp only [h0, if_true, List.mem_cons] at h
      rcases h with h | h
      · right; exact ⟨n % 10, Nat.mod_lt _ (by decide), h⟩
      · left; exact h
    · simp only [h0, if_false] at h
      rcases ih _ _ h with h | h
      · rcases List.mem_cons.mp h with h | h
        · right; exact ⟨n % 10, Nat.mod_lt _ (by decide), h⟩
        · left; exact h
      · right; exact h

theorem decimalValue_repr (n : Nat) : decimalValue (Nat.repr n).data = n := by
  show decimalValue (Nat.toDigitsCore 10 (n + 1) n []) = n
  unfold decimalValue
  rw [foldl_toDigitsCore (n + 1) n [] (by omega)]
  rfl

theorem minus_not_mem_repr (n : Nat) : '-' ∉ (Nat.repr n).data := by
  intro h
  rcases mem_toDigitsCore (n + 1) n [] '-' h with h | ⟨d, hd, h⟩
  · simp at h
  · exact digitChar_ne_minus d hd h.symm

theorem decimalValue_Itoa_ofNat (n : Nat) : decimalValue (Itoa (Int.ofNat n)).data = n :=
  decimalValue_repr n

theorem decimalValue_Itoa_negSucc (n : Nat) :
    decimalValue (Itoa (Int.negSucc n)).data = n + 1 := by
  show decimalValue (("-" ++ Nat.repr (n + 1)).data) = n + 1
  rw [String.data_append]
  have := decimalValue_repr (n + 1)
  unfold decimalValue at *
  simpa [List.foldl_append] using this

/-- `strconv.Itoa` is injective: distinct integers have distinct renderings. -/
theorem Itoa_injective : Function.Injective Itoa := by
  intro i j h
  have hv : decimalValue (Itoa i).data = decimalValue (Itoa j).data := by rw [h]
  have hm : '-' ∈ (Itoa i).data ↔ '-' ∈ (Itoa j).data := by rw [h]
  cases i with
  | ofNat m =>
    cases j with
    | ofNat n =>
      rw [decimalValue_Itoa_ofNat, decimalValue_Itoa_ofNat] at hv
      rw [hv]
    | negSucc n =>
      exfalso
      apply minus_not_mem_repr m
      apply hm.mpr
      show '-' ∈ ("-" ++ Nat.repr (n + 1)).data
      simp [String.data_append]
  | negSucc m =>
    cases j with
    | ofNat n =>
      exfalso
      apply minus_not_mem_repr n
      apply hm.mp
      show '-' ∈ ("-" ++ Nat.repr (m + 1)).data
      simp [String.data_append]
    | negSucc n =>
      rw [decimalValue_Itoa_negSucc, decimalValue_Itoa_negSucc] at hv
      have : m = n := by omega
      rw [this]

/-! ## Traces of one sender on one backend -/

theorem readUpdates_snoc (W : BackendMap) (pre : List Datagram) (d : Datagram) :
    readUpdates W (pre ++ [d]) = readUpdate (readUpdates W pre) d.addr d.now d.update := by
  simp [readUpdates, List.foldl_append]

theorem startedIds_snoc (pre : List Datagram) (d : Datagram) :
    startedIds (pre ++ [d])
      = if d.update.C = 1 then startedIds pre ++ [d.update.I] else startedIds pre := by
  unfold startedIds
  by_cases h : d.update.C = 1 <;> simp [List.filter_append, List.filter_cons, h]

theorem finishedIds_snoc (pre : List Datagram) (d : Datagram) :
    finishedIds (pre ++ [d])
      = if d.update.C = 2 then finishedIds pre ++ [d.update.I] else finishedIds pre := by
  unfold finishedIds
  by_cases h : d.update.C = 2 <;> simp [List.filter_append, List.filter_cons, h]

theorem startOf_spec (ds : List Datagram) (i : Int) (st : Datagram)
    (h : startOf ds i = some st) : st.update.C = 1 ∧ st.update.I = i ∧ st ∈ ds := by
  unfold startOf at h
  have h1 := List.find?_some h
  have h2 := List.mem_of_find?_eq_some h
  simp at h1
  exact ⟨h1.1, h1.2, h2⟩

theorem startOf_eq_none_iff (ds : List Datagram) (i : Int) :
    startOf ds i = none ↔ i ∉ startedIds ds := by
  unfold startOf startedIds
  rw [List.find?_eq_none]
  simp only [List.mem_map, List.mem_filter, decide_eq_true_eq, not_exists, not_and]
  constructor
  · intro h d hd hi
    exact h d hd.1 hd.2 hi
  · intro h d hd hc hi
    exact h d ⟨hd, hc⟩ hi

theorem startOf_snoc_of_mem (pre : List Datagram) (d : Datagram) (i : Int)
    (h : i ∈ startedIds pre) : startOf (pre ++ [d]) i = startOf pre i := by
  cases hs : startOf pre i with
  | none => exact absurd h ((startOf_eq_none_iff pre i).mp hs)
  | some st =>
    unfold startOf at hs ⊢
    rw [List.find?_append, hs]
    rfl

theorem startOf_snoc_new (pre : List Datagram) (d : Datagram)
    (h : d.update.I ∉ startedIds pre) (hC : d.update.C = 1) :
    startOf (pre ++ [d]) d.update.I = some d := by
  have hs := (startOf_eq_none_iff pre d.update.I).mpr h
  unfold startOf at hs ⊢
  rw [List.find?_append, hs]
  simp [hC]

theorem startOf_snoc_not_start (pre : List Datagram) (d : Datagram) (i : Int)
    (hC : d.update.C ≠ 1) : startOf (pre ++ [d]) i = startOf pre i := by
  unfold startOf
  rw [List.find?_append]
  simp [hC]

theorem finishFollowsStart_snoc (pre : List Datagram) (d : Datagram)
    (h : FinishFollowsStart (pre ++ [d])) :
    FinishFollowsStart pre ∧ (d.update.C = 2 → d.update.I ∈ startedIds pre) := by
  constructor
  · intro n hn hC
    have hn1 : n < (pre ++ [d]).length := by simp; omega
    have hg : (pre ++ [d])[n] = pre[n] := List.getElem_append_left hn
    have := h n hn1 (by rw [hg]; exact hC)
    rw [hg, List.take_append_of_le_length (by omega)] at this
    exact this
  · intro hC
    have hn1 : pre.length < (pre ++ [d]).length := by simp
    have hg : (pre ++ [d])[pre.length] = d := by simp
    have := h pre.length hn1 (by rw [hg]; exact hC)
    rw [hg, List.take_left] at this
    exact this

theorem finished_subset_started (ds : List Datagram) (h : FinishFollowsStart ds) :
    ∀ i ∈ finishedIds ds, i ∈ startedIds ds := by
  induction ds using List.reverseRecOn with
  | nil => intro i hi; simp [finishedIds] at hi
  | append_singleton pre d ih =>
    obtain ⟨hpre, hd⟩ := finishFollowsStart_snoc pre d h
    intro i hi
    have hsub : ∀ j ∈ startedIds pre, j ∈ startedIds (pre ++ [d]) := by
      intro j hj
      rw [startedIds_snoc]
      split
      · exact List.mem_append_left _ hj
      · exact hj
    rw [finishedIds_snoc] at hi
    by_cases hC : d.update.C = 2
    · rw [if_pos hC] at hi
      rcases List.mem_append.mp hi with hi | hi
      · exact hsub i (ih hpre i hi)
      · simp at hi; subst hi; exact hsub _ (hd hC)
    · rw [if_neg hC] at hi
      exact hsub i (ih hpre i hi)

theorem startOf_snoc_of_ne_id (pre : List Datagram) (d : Datagram) (i : Int)
    (h : d.update.I ≠ i) : startOf (pre ++ [d]) i = startOf pre i := by
  unfold startOf
  rw [List.find?_append]
  simp [h]

theorem mem_startedIds_of_startOf (ds : List Datagram) (i : Int) (st : Datagram)
    (h : startOf ds i = some st) : i ∈ startedIds ds := by
  by_contra hn
  rw [(startOf_eq_none_iff ds i).mpr hn] at h
  cases h

theorem streamInFlight_World (b : BackendIpport) (s : String) : StreamInFlight b s [] World := by
  intro k r
  constructor
  · intro h
    simp [requestsOf, World] at h
  · rintro ⟨i, st, hst, _⟩
    simp [startOf] at hst

theorem streamInFlight_start (b : BackendIpport) (s : String) (pre : List Datagram)
    (d : Datagram) (W : BackendMap) (hB : b.length ≠ 0) (ha : d.addr = s) (hb : d.update.B = b)
    (hC : d.update.C = 1) (hfresh : d.update.I ∉ startedIds pre)
    (hsub : ∀ i ∈ finishedIds pre, i ∈ startedIds pre) (ih : StreamInFlight b s pre W) :
    StreamInFlight b s (pre ++ [d]) (readUpdate W d.addr d.now d.update) := by
  subst ha hb
  have hnone : (requestsOf W d.update.B d.addr).lookup (Itoa d.update.I) = none := by
    cases hl : (requestsOf W d.update.B d.addr).lookup (Itoa d.update.I) with
    | none => rfl
    | some r0 =>
      obtain ⟨i, st, hst, _, hki, _⟩ := (ih _ r0).mp hl
      have := Itoa_injective hki
      exact absurd (this ▸ mem_startedIds_of_startOf pre i st hst) hfresh
  have hstep := (readUpdate_start_new W d.addr d.now d.update hB hC hnone).1
  have hfin : finishedIds (pre ++ [d]) = finishedIds pre := by
    rw [finishedIds_snoc, if_neg (by omega)]
  intro k r
  rw [hstep, hfin]
  by_cases hk : k = Itoa d.update.I
  · subst hk
    rw [Finmap.lookup_insert]
    constructor
    · intro h
      refine ⟨d.update.I, d, startOf_snoc_new pre d hfresh hC, fun hm => hfresh (hsub _ hm), rfl, ?_⟩
      cases h; rfl
    · rintro ⟨i, st, hst, _, hki, hr⟩
      have hi := Itoa_injective hki
      subst hi
      rw [startOf_snoc_new pre d hfresh hC] at hst
      cases hst
      rw [hr]; rfl
  · rw [Finmap.lookup_insert_of_ne _ hk, ih k r]
    constructor
    · rintro ⟨i, st, hst, hfi, hki, hr⟩
      refine ⟨i, st, ?_, hfi, hki, hr⟩
      rw [startOf_snoc_of_mem pre d i (mem_startedIds_of_startOf pre i st hst)]
      exact hst
    · rintro ⟨i, st, hst, hfi, hki, hr⟩
      refine ⟨i, st, ?_, hfi, hki, hr⟩
      rw [startOf_snoc_of_ne_id pre d i (fun h => hk (by rw [hki, h]))] at hst
      exact hst

theorem streamInFlight_finish (b : BackendIpport) (s : String) (pre : List Datagram)
    (d : Datagram) (W : BackendMap) (hB : b.length ≠ 0) (ha : d.addr = s) (hb : d.update.B = b)
    (hC : d.update.C = 2) (ih : StreamInFlight b s pre W) :
    StreamInFlight b s (pre ++ [d]) (readUpdate W d.addr d.now d.update) := by
  subst ha hb
  have hfin : finishedIds (pre ++ [d]) = finishedIds pre ++ [d.update.I] := by
    rw [finishedIds_snoc, if_pos hC]
  have hst : ∀ i, startOf (pre ++ [d]) i = startOf pre i :=
    fun i => startOf_snoc_not_start pre d i (by omega)
  intro k r
  rw [hfin]
  simp only [hst, List.mem_append, List.mem_singleton, not_or]
  cases hl : (requestsOf W d.update.B d.addr).lookup (Itoa d.update.I) with
  | none =>
    rw [(readUpdate_finish_none W d.addr d.now d.update hC hl _ _).1, ih k r]
    constructor
    · rintro ⟨i, st, hs, hfi, hki, hr⟩
      refine ⟨i, st, hs, ⟨hfi, ?_⟩, hki, hr⟩
      intro hi
      subst hi
      have := (ih (Itoa d.update.I) (startRecord st)).mpr ⟨_, st, hs, hfi, rfl, rfl⟩
      rw [hl] at this
      cases this
    · rintro ⟨i, st, hs, hfi, hki, hr⟩
      exact ⟨i, st, hs, hfi.1, hki, hr⟩
  | some r0 =>
    have hId : r0.Id = Itoa d.update.I := by
      obtain ⟨i, st, hs, _, hki, hr⟩ := (ih _ r0).mp hl
      rw [hr, hki]
      show Itoa st.update.I = Itoa i
      rw [(startOf_spec pre i st hs).2.1]
    rw [(readUpdate_finish_some W d.addr d.now d.update r0 hB hC hl).1, hId]
    by_cases hk : k = Itoa d.update.I
    · subst hk
      rw [Finmap.lookup_erase]
      constructor
      · intro h; cases h
      · rintro ⟨i, st, _, hfi, hki, _⟩
        exact absurd (Itoa_injective hki).symm hfi.2
    · rw [Finmap.lookup_erase_ne hk, ih k r]
      constructor
      · rintro ⟨i, st, hs, hfi, hki, hr⟩
        exact ⟨i, st, hs, ⟨hfi, fun hi => hk (by rw [hki, hi])⟩, hki, hr⟩
      · rintro ⟨i, st, hs, hfi, hki, hr⟩
        exact ⟨i, st, hs, hfi.1, hki, hr⟩

/-- The in-flight map of a well-formed single-sender trace, from the empty registry. -/
theorem streamInFlight_readUpdates (b : BackendIpport) (s : String) (ds : List Datagram)
    (hB : b.length ≠ 0) (hs : OneStream b s ds) (hn : (startedIds ds).Nodup)
    (hf : FinishFollowsStart ds) : StreamInFlight b s ds (readUpdates World ds) := by
  induction ds using List.reverseRecOn with
  | nil => exact streamInFlight_World b s
  | append_singleton pre d ih =>
    obtain ⟨hpre, hd⟩ := finishFollowsStart_snoc pre d hf
    have hs1 : OneStream b s pre := fun e he => hs e (List.mem_append_left _ he)
    obtain ⟨ha, hb, hC⟩ := hs d (by simp)
    rw [readUpdates_snoc]
    rw [startedIds_snoc] at hn
    rcases hC with hC | hC
    · rw [if_pos hC] at hn
      have hn1 : (startedIds pre).Nodup := (List.nodup_append.mp hn).1
      have hfresh : d.update.I ∉ startedIds pre := by
        intro hm
        exact (List.nodup_append.mp hn).2.2 hm (by simp)
      exact streamInFlight_start b s pre d _ hB ha hb hC hfresh
        (finished_subset_started pre hpre) (ih hs1 hn1 hpre)
    · rw [if_neg (by omega)] at hn
      exact streamInFlight_finish b s pre d _ hB ha hb hC (ih hs1 hn hpre)

theorem keys_of_streamInFlight (b : BackendIpport) (s : String) (ds : List Datagram)
    (W : BackendMap) (h : StreamInFlight b s ds W) :
    (requestsOf W b s).keys
      = ((startedIds ds).filter (fun i => i ∉ finishedIds ds)).toFinset.image Itoa := by
  ext k
  rw [Finmap.mem_keys, Finmap.mem_iff]
  simp only [Finset.mem_image, List.mem_toFinset, List.mem_filter, decide_eq_true_eq]
  constructor
  · rintro ⟨r, hr⟩
    obtain ⟨i, st, hst, hfi, hki, _⟩ := (h k r).mp hr
    exact ⟨i, ⟨mem_startedIds_of_startOf ds i st hst, hfi⟩, hki.symm⟩
  · rintro ⟨i, ⟨hi, hfi⟩, hki⟩
    cases hst : startOf ds i with
    | none => exact absurd hi ((startOf_eq_none_iff ds i).mp hst)
    | some st => exact ⟨startRecord st, (h k _).mpr ⟨i, st, hst, hfi, hki.symm, rfl⟩⟩

theorem completions_snoc_not_finish (pre : List Datagram) (d : Datagram)
    (hC : d.update.C ≠ 2) (hsub : ∀ i ∈ finishedIds pre, i ∈ startedIds pre) :
    completions (pre ++ [d]) = completions pre := by
  unfold completions
  have hfil : (pre ++ [d]).filter (fun e => e.update.C = 2)
      = pre.filter (fun e => e.update.C = 2) := by
    simp [List.filter_append, List.filter_cons, hC]
  rw [hfil]
  apply List.filterMap_congr
  intro f hf
  have hfI : f.update.I ∈ finishedIds pre := List.mem_map.mpr ⟨f, hf, rfl⟩
  unfold completionOf
  rw [startOf_snoc_of_mem pre d _ (hsub _ hfI)]

theorem completions_snoc_finish (pre : List Datagram) (d : Datagram) (hC : d.update.C = 2) :
    completions (pre ++ [d]) = completions pre ++ (completionOf pre d).toList := by
  unfold completions
  have hfil : (pre ++ [d]).filter (fun e => e.update.C = 2)
      = pre.filter (fun e => e.update.C = 2) ++ [d] := by
    simp [List.filter_append, List.filter_cons, hC]
  have hfun : completionOf (pre ++ [d]) = completionOf pre := by
    funext f
    unfold completionOf
    rw [startOf_snoc_not_start pre d _ (by omega)]
  rw [hfil, hfun, List.filterMap_append]
  congr 1

theorem completions_ids (ds : List Datagram) (hf : FinishFollowsStart ds) :
    (completions ds).map (fun c => c.Id) = (finishedIds ds).map Itoa := by
  induction ds using List.reverseRecOn with
  | nil => rfl
  | append_singleton pre d ih =>
    obtain ⟨hpre, hd⟩ := finishFollowsStart_snoc pre d hf
    by_cases hC : d.update.C = 2
    · rw [completions_snoc_finish pre d hC, finishedIds_snoc, if_pos hC, List.map_append,
        List.map_append, ih hpre]
      congr 1
      cases hst : startOf pre d.update.I with
      | none => exact absurd (hd hC) ((startOf_eq_none_iff pre _).mp hst)
      | some st => simp [completionOf, hst]
    · rw [completions_snoc_not_finish pre d hC (finished_subset_started pre hpre),
        finishedIds_snoc, if_neg hC, ih hpre]

theorem take_cons_take (l : List Request) (r : Request) :
    (r :: l.take 500).take 500 = (r :: l).take 500 := by
  show (r :: l.take 500).take (499 + 1) = (r :: l).take (499 + 1)
  rw [List.take_succ_cons, List.take_succ_cons, List.take_take]
  simp

theorem free_key_of_fresh (b : BackendIpport) (s : String) (pre : List Datagram)
    (W : BackendMap) (i : Int) (ih : StreamInFlight b s pre W) (hfresh : i ∉ startedIds pre) :
    (requestsOf W b s).lookup (Itoa i) = none := by
  cases hl : (requestsOf W b s).lookup (Itoa i) with
  | none => rfl
  | some r0 =>
    obtain ⟨j, st, hst, _, hki, _⟩ := (ih _ r0).mp hl
    have := Itoa_injective hki
    exact absurd (this ▸ mem_startedIds_of_startOf pre j st hst) hfresh

/-- The `Completed` sequence of a well-formed single-sender trace in which no request is
finished twice, from the empty registry. -/
theorem completed_of_stream (b : BackendIpport) (s : String) (ds : List Datagram)
    (hB : b.length ≠ 0) (hs : OneStream b s ds) (hn : (startedIds ds).Nodup)
    (hm : (finishedIds ds).Nodup) (hf : FinishFollowsStart ds) :
    completedOf (readUpdates World ds) b = (completions ds).reverse.take 500 := by
  induction ds using List.reverseRecOn with
  | nil => simp [readUpdates, completedOf, World, completions]
  | append_singleton pre d ih =>
    obtain ⟨hpre, hd⟩ := finishFollowsStart_snoc pre d hf
    have hs1 : OneStream b s pre := fun e he => hs e (List.mem_append_left _ he)
    obtain ⟨ha, hb, hC⟩ := hs d (by simp)
    rw [startedIds_snoc] at hn
    rw [finishedIds_snoc] at hm
    rw [readUpdates_snoc]
    rcases hC with hC | hC
    · rw [if_pos hC] at hn
      rw [if_neg (by omega)] at hm
      have hn1 : (startedIds pre).Nodup := (List.nodup_append.mp hn).1
      have hfresh : d.update.I ∉ startedIds pre := fun hmem =>
        (List.nodup_append.mp hn).2.2 hmem (by simp)
      have hA := streamInFlight_readUpdates b s pre hB hs1 hn1 hpre
      have hnone := free_key_of_fresh b s pre _ d.update.I hA hfresh
      subst ha hb
      rw [(readUpdate_start_new _ d.addr d.now d.update hB hC hnone).2, ih hs1 hn1 hm hpre,
        completions_snoc_not_finish pre d (by omega) (finished_subset_started pre hpre)]
    · rw [if_neg (by omega)] at hn
      rw [if_pos hC] at hm
      have hm1 : (finishedIds pre).Nodup := (List.nodup_append.mp hm).1
      have hnotfin : d.update.I ∉ finishedIds pre := fun hmem =>
        (List.nodup_append.mp hm).2.2 hmem (by simp)
      have hA := streamInFlight_readUpdates b s pre hB hs1 hn hpre
      cases hst : startOf pre d.update.I with
      | none => exact absurd (hd hC) ((startOf_eq_none_iff pre _).mp hst)
      | some st =>
        have hl := (hA (Itoa d.update.I) (startRecord st)).mpr
          ⟨d.update.I, st, hst, hnotfin, rfl, rfl⟩
        have hI : st.update.I = d.update.I := (startOf_spec pre _ st hst).2.1
        subst ha hb
        rw [(readUpdate_finish_some _ d.addr d.now d.update _ hB hC hl).2,
          pushCompleted_eq_take _ _
            (completedBounded_of_reachable _ (reachable_readUpdates pre World Reachable.init) _),
          ih hs1 hn hm1 hpre, take_cons_take, completions_snoc_finish pre d hC]
        simp [completionOf, hst, startRecord, hI]

/-! ## What one step does to the in-flight entries and to `Completed` -/

theorem mem_pushCompleted (l : List Request) (r c : Request) (h : c ∈ pushCompleted l r) :
    c = r ∨ c ∈ l := by
  simp only [pushCompleted] at h
  split at h
  · exact List.mem_cons.mp (List.mem_of_mem_dropLast h)
  · exact List.mem_cons.mp h

/-- An in-flight entry present after a step was present before it, or is the request a
started update has just stored under a free key. -/
theorem inFlightAt_readUpdate_cases (W : BackendMap) (a : String) (now : Int)
    (u : BackendUpdate) (b : BackendIpport) (s : String) (k : RequestId) (r : Request)
    (h : inFlightAt (readUpdate W a now u) b s k = some r) :
    inFlightAt W b s k = some r ∨
    (u.C = 1 ∧ u.B.length ≠ 0 ∧ b = u.B ∧ s = a ∧ k = Itoa u.I ∧ r.Id = Itoa u.I ∧
      inFlightAt W u.B a (Itoa u.I) = none) := by
  unfold inFlightAt at h ⊢
  by_cases hB : u.B.length = 0
  · rw [readUpdate_empty_B W a now u hB] at h; exact Or.inl h
  by_cases hb : b = u.B
  swap
  · rw [requestsOf_readUpdate_of_ne W a now u b s hb] at h; exact Or.inl h
  subst hb
  by_cases hs : s = a
  swap
  · rw [requestsOf_readUpdate_of_ne_sender W a now u _ s hs] at h; exact Or.inl h
  subst hs
  by_cases h1 : u.C = 1
  · cases hl : (requestsOf W u.B s).lookup (Itoa u.I) with
    | none =>
      rw [(readUpdate_start_new W s now u hB h1 hl).1] at h
      by_cases hk : k = Itoa u.I
      · subst hk
        rw [Finmap.lookup_insert] at h
        cases h
        exact Or.inr ⟨h1, hB, rfl, rfl, rfl, rfl, rfl⟩
      · rw [Finmap.lookup_insert_of_ne _ hk] at h; exact Or.inl h
    | some r0 =>
      rw [(readUpdate_start_dup W s now u r0 hB h1 hl).1] at h
      by_cases hk : k = Itoa u.I
      · subst hk; rw [Finmap.lookup_erase] at h; cases h
      · rw [Finmap.lookup_erase_ne hk] at h; exact Or.inl h
  · by_cases h2 : u.C = 2
    · cases hl : (requestsOf W u.B s).lookup (Itoa u.I) with
      | none =>
        rw [(readUpdate_finish_none W s now u h2 hl u.B s).1] at h; exact Or.inl h
      | some r0 =>
        rw [(readUpdate_finish_some W s now u r0 hB h2 hl).1] at h
        by_cases hk : k = r0.Id
        · subst hk; rw [Finmap.lookup_erase] at h; cases h
        · rw [Finmap.lookup_erase_ne hk] at h; exact Or.inl h
    · rw [(readUpdate_other W s now u h1 h2 u.B s).1] at h; exact Or.inl h

/-- A completed record present after a step was present before it, or is the in-flight
request a finished update has just promoted. -/
theorem mem_completedOf_readUpdate_cases (W : BackendMap) (a : String) (now : Int)
    (u : BackendUpdate) (b : BackendIpport) (c : Request)
    (h : c ∈ completedOf (readUpdate W a now u) b) :
    c ∈ completedOf W b ∨
    (u.C = 2 ∧ u.B.length ≠ 0 ∧ b = u.B ∧
      ∃ r0, inFlightAt W u.B a (Itoa u.I) = some r0 ∧ c.Id = r0.Id) := by
  by_cases hB : u.B.length = 0
  · rw [readUpdate_empty_B W a now u hB] at h; exact Or.inl h
  by_cases hb : b = u.B
  swap
  · rw [completedOf_readUpdate_of_ne W a now u b hb] at h; exact Or.inl h
  subst hb
  by_cases h1 : u.C = 1
  · cases hl : (requestsOf W u.B a).lookup (Itoa u.I) with
    | none => rw [(readUpdate_start_new W a now u hB h1 hl).2] at h; exact Or.inl h
    | some r0 => rw [(readUpdate_start_dup W a now u r0 hB h1 hl).2] at h; exact Or.inl h
  · by_cases h2 : u.C = 2
    · cases hl : (requestsOf W u.B a).lookup (Itoa u.I) with
      | none => rw [(readUpdate_finish_none W a now u h2 hl u.B a).2] at h; exact Or.inl h
      | some r0 =>
        rw [(readUpdate_finish_some W a now u r0 hB h2 hl).2] at h
        rcases mem_pushCompleted _ _ _ h with h | h
        · exact Or.inr ⟨h2, hB, rfl, r0, hl, by rw [h]⟩
        · exact Or.inl h
    · rw [(readUpdate_other W a now u h1 h2 u.B a).2] at h; exact Or.inl h

/-- A matched finished update leaves its key free when requests sit under their `Id`. -/
theorem inFlightAt_readUpdate_finished (W : BackendMap) (a : String) (now : Int)
    (u : BackendUpdate) (r0 : Request) (hB : u.B.length ≠ 0) (hC : u.C = 2)
    (h : inFlightAt W u.B a (Itoa u.I) = some r0) (hId : r0.Id = Itoa u.I) :
    inFlightAt (readUpdate W a now u) u.B a (Itoa u.I) = none := by
  unfold inFlightAt
  rw [(readUpdate_finish_some W a now u r0 hB hC h).1, hId]
  exact Finmap.lookup_erase _ _

/-! ## Request ids along a trace -/

theorem startedKeys_snoc (pre : List Datagram) (d : Datagram) :
    startedKeys (pre ++ [d])
      = if d.update.C = 1 ∧ d.update.B.length ≠ 0
        then startedKeys pre ++ [(d.update.B, d.update.I)] else startedKeys pre := by
  unfold startedKeys
  by_cases h : d.update.C = 1 ∧ d.update.B.length ≠ 0
  · rw [if_pos h]
    simp [List.filter_append, List.filter_cons, h]
  · rw [if_neg h]
    have hB : d.update.C = 1 → d.update.B.length = 0 := fun h1 =>
      Classical.byContradiction fun hB => h ⟨h1, hB⟩
    simpa [List.filter_append, List.filter_cons] using hB

theorem idsTracked_World : IdsTracked [] World := by
  refine ⟨?_, ?_, ?_, ?_⟩
  · intro b s k r h
    simp [inFlightAt, requestsOf, World] at h
  · intro b c h
    simp [completedOf, World] at h
  · intro b s k r h
    simp [inFlightAt, requestsOf, World] at h
  · intro b s1 s2 k r1 r2 h
    simp [inFlightAt, requestsOf, World] at h

theorem idsTracked_step (pre : List Datagram) (d : Datagram) (W : BackendMap)
    (ih : IdsTracked pre W) (hn : (startedKeys (pre ++ [d])).Nodup) :
    IdsTracked (pre ++ [d]) (readUpdate W d.addr d.now d.update) := by
  obtain ⟨P1, P2, P3, P4⟩ := ih
  have hsub : ∀ x ∈ startedKeys pre, x ∈ startedKeys (pre ++ [d]) := by
    intro x hx
    rw [startedKeys_snoc]
    split
    · exact List.mem_append_left _ hx
    · exact hx
  have hnew : d.update.C = 1 → d.update.B.length ≠ 0 →
      (d.update.B, d.update.I) ∈ startedKeys (pre ++ [d]) := by
    intro h1 hB
    rw [startedKeys_snoc, if_pos ⟨h1, hB⟩]
    simp
  have hfresh : d.update.C = 1 → d.update.B.length ≠ 0 →
      (d.update.B, d.update.I) ∉ startedKeys pre := by
    intro h1 hB hm
    rw [startedKeys_snoc, if_pos ⟨h1, hB⟩] at hn
    exact (List.nodup_append.mp hn).2.2 hm (by simp)
  refine ⟨?_, ?_, ?_, ?_⟩
  · intro b s k r hr
    rcases inFlightAt_readUpdate_cases W _ _ _ b s k r hr with h | ⟨h1, hB, hb, _, hk, hId, _⟩
    · obtain ⟨e, i, hi, hm⟩ := P1 b s k r h
      exact ⟨e, i, hi, hsub _ hm⟩
    · subst hb hk
      exact ⟨hId, d.update.I, rfl, hnew h1 hB⟩
  · intro b c hc
    rcases mem_completedOf_readUpdate_cases W _ _ _ b c hc with h | ⟨_, _, hb, r0, hr0, hId⟩
    · obtain ⟨i, hi, hm⟩ := P2 b c h
      exact ⟨i, hi, hsub _ hm⟩
    · subst hb
      obtain ⟨e, i, hi, hm⟩ := P1 _ _ _ r0 hr0
      exact ⟨i, by rw [hId, e, hi], hsub _ hm⟩
  · intro b s k r hr c hc heq
    rcases inFlightAt_readUpdate_cases W _ _ _ b s k r hr with h | ⟨h1, hB, hb, _, _, hId, _⟩
    · rcases mem_completedOf_readUpdate_cases W _ _ _ b c hc with
        hc1 | ⟨h2, hB, hb, r0, hr0, hcId⟩
      · exact P3 b s k r h c hc1 heq
      · subst hb
        have e1 := (P1 _ _ _ r h).1
        have e0 := (P1 _ _ _ r0 hr0).1
        have hk : k = Itoa d.update.I := by rw [← e1, ← heq, hcId, e0]
        subst hk
        have hsa := P4 _ _ _ _ _ _ h hr0
        subst hsa
        rw [inFlightAt_readUpdate_finished W _ d.now d.update r0 hB h2 hr0 e0] at hr
        cases hr
    · rcases mem_completedOf_readUpdate_cases W _ _ _ b c hc with hc1 | ⟨h2, _⟩
      · subst hb
        obtain ⟨i, hi, hm⟩ := P2 _ c hc1
        have hi2 : i = d.update.I := Itoa_injective (by rw [← hi, heq, hId])
        subst hi2
        exact hfresh h1 hB hm
      · omega
  · intro b s1 s2 k r1 r2 hr1 hr2
    rcases inFlightAt_readUpdate_cases W _ _ _ b s1 k r1 hr1 with
      o1 | ⟨c1, hB1, hb1, hs1, hk1, _, _⟩
    · rcases inFlightAt_readUpdate_cases W _ _ _ b s2 k r2 hr2 with
        o2 | ⟨c2, hB2, hb2, _, hk2, _, _⟩
      · exact P4 b s1 s2 k r1 r2 o1 o2
      · subst hb2 hk2
        obtain ⟨_, i, hi, hm⟩ := P1 _ _ _ r1 o1
        have hi2 := Itoa_injective hi
        subst hi2
        exact absurd hm (hfresh c2 hB2)
    · rcases inFlightAt_readUpdate_cases W _ _ _ b s2 k r2 hr2 with
        o2 | ⟨_, _, _, hs2, _, _, _⟩
      · subst hb1 hk1
        obtain ⟨_, i, hi, hm⟩ := P1 _ _ _ r2 o2
        have hi2 := Itoa_injective hi
        subst hi2
        exact absurd hm (hfresh c1 hB1)
      · rw [hs1, hs2]

theorem idsTracked_readUpdates (ds : List Datagram) (hn : (startedKeys ds).Nodup) :
    IdsTracked ds (readUpdates World ds) := by
  induction ds using List.reverseRecOn with
  | nil => exact idsTracked_World
  | append_singleton pre d ih =>
    have hpre : (startedKeys pre).Nodup := by
      rw [startedKeys_snoc] at hn
      split at hn
      · exact (List.nodup_append.mp hn).1
      · exact hn
    rw [readUpdates_snoc]
    exact idsTracked_step pre d _ (ih hpre) hn

/-! ## Steps that leave the registry as it is -/

/-- When the backend and the sender's request map exist and the `switch` writes nothing,
the registry after the iteration is the registry before it. -/
theorem readUpdate_eq_self_of_switch_noop (W : BackendMap) (a : String) (now : Int)
    (u : BackendUpdate) (backend : Backend) (m : RequestMap)
    (hb : W.lookup u.B = some backend) (hm : backend.InFlight.lookup a = some m)
    (hsw : switchUpdate backend a now (Itoa u.I) u = backend) : readUpdate W a now u = W := by
  unfold readUpdate
  split
  · rfl
  · have hg : getBackend W u.B = backend := by simp [getBackend, hb]
    have he : ensureReceiver backend a = backend := by simp [ensureReceiver, hm]
    show W.insert u.B (switchUpdate (ensureReceiver (getBackend W u.B) a) a now (Itoa u.I) u) = W
    rw [hg, he, hsw]
    exact finmap_insert_lookup_self W u.B backend hb

theorem mem_readUpdate (W : BackendMap) (a : String) (now : Int) (u : BackendUpdate)
    (b : BackendIpport) (h : b ∈ W) : b ∈ readUpdate W a now u := by
  unfold readUpdate
  split
  · exact h
  · exact Finmap.mem_insert.mpr (Or.inr h)

theorem mem_readUpdates (ds : List Datagram) (W : BackendMap) (b : BackendIpport)
    (h : b ∈ W) : b ∈ readUpdates W ds := by
  induction ds generalizing W with
  | nil => exact h
  | cons d ds ih => exact ih _ (mem_readUpdate W d.addr d.now d.update b h)

theorem readUpdates_cons (W : BackendMap) (d : Datagram) (ds : List Datagram) :
    readUpdates W (d :: ds) = readUpdates (readUpdate W d.addr d.now d.update) ds := rfl

/-! ## One step touches one slot -/

/-- On a registry whose requests sit under their `Id`, an update leaves every in-flight slot
other than its own `(backend, sender, Itoa requestSeq)` as it was. -/
theorem inFlightAt_readUpdate_of_ne_key (W : BackendMap) (hK : KeyedById W) (a : String)
    (now : Int) (u : BackendUpdate) (b : BackendIpport) (s : String) (k : RequestId)
    (hne : (b, s, k) ≠ (u.B, a, Itoa u.I)) :
    inFlightAt (readUpdate W a now u) b s k = inFlightAt W b s k := by
  unfold inFlightAt
  by_cases hB : u.B.length = 0
  · rw [readUpdate_empty_B W a now u hB]
  by_cases hb : b = u.B
  swap
  · rw [requestsOf_readUpdate_of_ne W a now u b s hb]
  subst hb
  by_cases hs : s = a
  swap
  · rw [requestsOf_readUpdate_of_ne_sender W a now u _ s hs]
  subst hs
  have hk : k ≠ Itoa u.I := fun hk => hne (by rw [hk])
  by_cases h1 : u.C = 1
  · cases hl : (requestsOf W u.B s).lookup (Itoa u.I) with
    | none =>
      rw [(readUpdate_start_new W s now u hB h1 hl).1, Finmap.lookup_insert_of_ne _ hk]
    | some r0 =>
      rw [(readUpdate_start_dup W s now u r0 hB h1 hl).1, Finmap.lookup_erase_ne hk]
  · by_cases h2 : u.C = 2
    · cases hl : (requestsOf W u.B s).lookup (Itoa u.I) with
      | none => rw [(readUpdate_finish_none W s now u h2 hl u.B s).1]
      | some r0 =>
        have hId : r0.Id = Itoa u.I := hK u.B s _ r0 hl
        rw [(readUpdate_finish_some W s now u r0 hB h2 hl).1, hId, Finmap.lookup_erase_ne hk]
    · rw [(readUpdate_other W s now u h1 h2 u.B s).1]

theorem ipport_ensureReceiver (be : Backend) (a : String) :
    (ensureReceiver be a).Ipport = be.Ipport := by
  unfold ensureReceiver
  cases be.InFlight.lookup a <;> rfl

theorem lookup_inFlight_ensureReceiver_of_ne (be : Backend) (a s : String) (h : s ≠ a) :
    (ensureReceiver be a).InFlight.lookup s = be.InFlight.lookup s := by
  unfold ensureReceiver
  cases be.InFlight.lookup a with
  | some m => rfl
  | none => exact Finmap.lookup_insert_of_ne _ h

theorem lookup_inFlight_ensureReceiver_self (be : Backend) (a : String) :
    ∃ m, (ensureReceiver be a).InFlight.lookup a = some m := by
  unfold ensureReceiver
  cases h : be.InFlight.lookup a with
  | some m => exact ⟨m, h⟩
  | none => exact ⟨∅, Finmap.lookup_insert _⟩

/-- The `switch` rewrites at most the request map of the sender and `Completed`. -/
theorem switchUpdate_shape (be : Backend) (a : String) (now : Int) (k : RequestId)
    (u : BackendUpdate) :
    switchUpdate be a now k u = be ∨
    ∃ m l, switchUpdate be a now k u
      = { Ipport := be.Ipport, Completed := l, InFlight := be.InFlight.insert a m } := by
  by_cases h1 : u.C = 1
  · right
    cases hl : (inFlightOf be a).lookup k with
    | none => exact ⟨_, be.Completed, switchUpdate_start_new be a now k u h1 hl⟩
    | some r => exact ⟨_, be.Completed, switchUpdate_start_dup be a now k u r h1 hl⟩
  · by_cases h2 : u.C = 2
    · cases hl : (inFlightOf be a).lookup k with
      | none => left; exact switchUpdate_finish_none be a now k u h2 hl
      | some r => right; exact ⟨_, _, switchUpdate_finish_some be a now k u r h2 hl⟩
    · left; exact switchUpdate_other be a now k u h1 h2

theorem ipport_switchUpdate (be : Backend) (a : String) (now : Int) (k : RequestId)
    (u : BackendUpdate) : (switchUpdate be a now k u).Ipport = be.Ipport := by
  rcases switchUpdate_shape be a now k u with h | ⟨m, l, h⟩ <;> rw [h]

theorem lookup_inFlight_switchUpdate_of_ne (be : Backend) (a s : String) (now : Int)
    (k : RequestId) (u : BackendUpdate) (hs : s ≠ a) :
    (switchUpdate be a now k u).InFlight.lookup s = be.InFlight.lookup s := by
  rcases switchUpdate_shape be a now k u with h | ⟨m, l, h⟩ <;> rw [h]
  exact Finmap.lookup_insert_of_ne _ hs

theorem lookup_inFlight_switchUpdate_self (be : Backend) (a : String) (now : Int)
    (k : RequestId) (u : BackendUpdate) (m0 : RequestMap)
    (h0 : be.InFlight.lookup a = some m0) :
    ∃ m, (switchUpdate be a now k u).InFlight.lookup a = some m := by
  rcases switchUpdate_shape be a now k u with h | ⟨m, l, h⟩ <;> rw [h]
  · exact ⟨m0, h0⟩
  · exact ⟨m, Finmap.lookup_insert _⟩

theorem getBackend_of_lookup (W : BackendMap) (b : BackendIpport) (be : Backend)
    (h : W.lookup b = some be) : getBackend W b = be := by
  simp [getBackend, h]

theorem getBackend_of_absent (W : BackendMap) (b : BackendIpport)
    (h : W.lookup b = none) : getBackend W b = newBackend b := by
  simp [getBackend, h]

/-! ## Entries record their key -/

theorem ipportIsKey_readUpdate (W : BackendMap) (a : String) (now : Int)
    (u : BackendUpdate) (h : IpportIsKey W) : IpportIsKey (readUpdate W a now u) := by
  intro b be hb
  by_cases hB : u.B.length = 0
  · rw [readUpdate_empty_B W a now u hB] at hb; exact h b be hb
  by_cases hbb : b = u.B
  · subst hbb
    rw [lookup_readUpdate_self W a now u hB] at hb
    cases hb
    rw [ipport_switchUpdate, ipport_ensureReceiver]
    cases hl : W.lookup u.B with
    | none => rw [getBackend_of_absent W _ hl]; rfl
    | some be0 => rw [getBackend_of_lookup W _ be0 hl]; exact h _ be0 hl
  · rw [lookup_readUpdate_of_ne W a now u b hbb] at hb; exact h b be hb

theorem ipportIsKey_of_reachable (W : BackendMap) (h : Reachable W) : IpportIsKey W := by
  induction h with
  | init =>
    intro b be hb
    simp [World] at hb
  | step a now u _ ih => exact ipportIsKey_readUpdate _ a now u ih

/-! ## A backend that has just been built -/

theorem insert_empty_eq_singleton {K V : Type} [DecidableEq K] (k : K) (v : V) :
    (∅ : Finmap (fun _ : K => V)).insert k v = Finmap.singleton k v := by
  apply Finmap.ext_lookup
  intro x
  by_cases hx : x = k
  · subst hx; rw [Finmap.lookup_insert, Finmap.lookup_singleton_eq]
  · rw [Finmap.lookup_insert_of_ne _ hx, Finmap.lookup_empty]
    symm
    rw [Finmap.lookup_eq_none, Finmap.mem_singleton]
    exact hx

theorem ensureReceiver_newBackend (b : BackendIpport) (a : String) :
    ensureReceiver (newBackend b) a
      = { Ipport := b, Completed := [], InFlight := Finmap.singleton a ∅ } := by
  simp [ensureReceiver, newBackend, insert_empty_eq_singleton]

theorem inFlightOf_ensureReceiver_newBackend (b : BackendIpport) (a : String) :
    inFlightOf (ensureReceiver (newBackend b) a) a = ∅ := by
  rw [inFlightOf_ensureReceiver]
  simp [inFlightOf, newBackend]

theorem switchUpdate_newBackend_not_start (b : BackendIpport) (a : String) (now : Int)
    (k : RequestId) (u : BackendUpdate) (h1 : u.C ≠ 1) :
    switchUpdate (ensureReceiver (newBackend b) a) a now k u
      = ensureReceiver (newBackend b) a := by
  by_cases h2 : u.C = 2
  · apply switchUpdate_finish_none _ a now k u h2
    rw [inFlightOf_ensureReceiver_newBackend]
    exact Finmap.lookup_empty _
  · exact switchUpdate_other _ a now k u h1 h2

theorem completed_switchUpdate_newBackend (b : BackendIpport) (a : String) (now : Int)
    (k : RequestId) (u : BackendUpdate) :
    (switchUpdate (ensureReceiver (newBackend b) a) a now k u).Completed = [] := by
  rcases completed_switchUpdate (ensureReceiver (newBackend b) a) a now k u with
    h | ⟨r, _, hl, _⟩
  · rw [h, completed_ensureReceiver]; rfl
  · rw [inFlightOf_ensureReceiver_newBackend, Finmap.lookup_empty] at hl
    cases hl

/-! ## The checked iteration never faults -/

theorem soundRequests_empty : SoundRequests (some ∅) :=
  ⟨∅, rfl, fun k p h => by rw [Finmap.lookup_empty] at h; cases h⟩

theorem soundBackend_insert (backend : BackendN)
    (receivers : Finmap (fun _ : String => RequestMapN))
    (hs : ∀ s requests, receivers.lookup s = some requests → SoundRequests requests)
    (a : String) (requests : RequestMapN) (hr : SoundRequests requests)
    (completed : List Request) :
    SoundBackend { Ipport := backend.Ipport, Completed := completed,
                   InFlight := some (receivers.insert a requests) } := by
  refine ⟨_, rfl, ?_⟩
  intro s rq h
  by_cases hsa : s = a
  · subst hsa
    rw [Finmap.lookup_insert] at h
    cases h
    exact hr
  · rw [Finmap.lookup_insert_of_ne _ hsa] at h
    exact hs s rq h

theorem ensureReceiverN_ok (backend : BackendN) (a : String) (h : SoundBackend backend) :
    ∃ backend1, ensureReceiverN backend a = Except.ok backend1 ∧ SoundBackend backend1 ∧
      SoundRequests (requestsN backend1 a) := by
  obtain ⟨receivers, hfl, hs⟩ := h
  cases hl : receivers.lookup a with
  | some requests =>
    refine ⟨backend, by simp only [ensureReceiverN, hfl, hl], ⟨receivers, hfl, hs⟩, ?_⟩
    simp only [requestsN, hfl, hl]
    exact hs a requests hl
  | none =>
    refine ⟨{ backend with InFlight := some (receivers.insert a (some ∅)) },
      by simp only [ensureReceiverN, hfl, hl],
      soundBackend_insert backend receivers hs a _ soundRequests_empty _, ?_⟩
    simp only [requestsN, Finmap.lookup_insert]
    exact soundRequests_empty

theorem storeN_ok (backend : BackendN) (a : String) (k : RequestId) (request : Request)
    (h : SoundBackend backend) (hr : SoundRequests (requestsN backend a)) :
    ∃ backend1, storeN backend a k (some request) = Except.ok backend1 ∧
      SoundBackend backend1 ∧ backend1.Completed = backend.Completed := by
  obtain ⟨receivers, hfl, hs⟩ := h
  obtain ⟨m, hm, hsound⟩ := hr
  simp only [requestsN, hfl] at hm
  cases hl : receivers.lookup a with
  | none => rw [hl] at hm; cases hm
  | some requests =>
    rw [hl] at hm
    simp only at hm
    subst hm
    refine ⟨{ backend with
        InFlight := some (receivers.insert a (some (m.insert k (some request)))) },
      by simp only [storeN, hfl, hl],
      soundBackend_insert backend receivers hs a _ ⟨_, rfl, ?_⟩ _, rfl⟩
    intro k1 p hp
    by_cases hk : k1 = k
    · subst hk
      rw [Finmap.lookup_insert] at hp
      cases hp
      exact fun hn => by cases hn
    · rw [Finmap.lookup_insert_of_ne _ hk] at hp
      exact hsound k1 p hp

theorem deleteN_ok (backend : BackendN) (a : String) (k : RequestId)
    (h : SoundBackend backend) (hr : SoundRequests (requestsN backend a)) :
    ∃ backend1, deleteN backend a k = Except.ok backend1 ∧
      SoundBackend backend1 ∧ backend1.Completed = backend.Completed := by
  obtain ⟨receivers, hfl, hs⟩ := h
  obtain ⟨m, hm, hsound⟩ := hr
  simp only [requestsN, hfl] at hm
  cases hl : receivers.lookup a with
  | none => rw [hl] at hm; cases hm
  | some requests =>
    rw [hl] at hm
    simp only at hm
    subst hm
    refine ⟨{ backend with InFlight := some (receivers.insert a (some (m.erase k))) },
      by simp only [deleteN, hfl, hl],
      soundBackend_insert backend receivers hs a _ ⟨_, rfl, ?_⟩ _, rfl⟩
    intro k1 p hp
    by_cases hk : k1 = k
    · subst hk
      rw [Finmap.lookup_erase] at hp
      cases hp
    · rw [Finmap.lookup_erase_ne hk] at hp
      exact hsound k1 p hp

theorem lookupN_sound (requests : RequestMapN) (k : RequestId) (h : SoundRequests requests) :
    lookupN requests k ≠ some none := by
  obtain ⟨m, hm, hsound⟩ := h
  subst hm
  intro hl
  exact hsound k none hl rfl

theorem soundBackend_completed (backend : BackendN) (completed : List Request)
    (h : SoundBackend backend) : SoundBackend { backend with Completed := completed } := by
  obtain ⟨receivers, hfl, hs⟩ := h
  exact ⟨receivers, hfl, hs⟩

theorem switchUpdateN_ok (backend : BackendN) (a : String) (now : Int) (k : RequestId)
    (u : BackendUpdate) (h : SoundBackend backend) (hr : SoundRequests (requestsN backend a)) :
    ∃ backend1 line, switchUpdateN backend a now k u = Except.ok (backend1, line) ∧
      SoundBackend backend1 := by
  unfold switchUpdateN
  split
  · cases hl : lookupN (requestsN backend a) k with
    | some p =>
      obtain ⟨b1, hd, hs1, _⟩ := deleteN_ok backend a k h hr
      exact ⟨b1, some (LogLine.duplicateId k), by simp only [hl, hd], hs1⟩
    | none =>
      obtain ⟨b1, hd, hs1, _⟩ := storeN_ok backend a k
        { Id := k, Uri := u.U, Time := Float64.zero, StartTime := now, ResponseCode := 0 } h hr
      exact ⟨b1, none, by simp only [hl, hd], hs1⟩
  · cases hl : lookupN (requestsN backend a) k with
    | none => exact ⟨backend, some (LogLine.unknownId k), rfl, h⟩
    | some p =>
      cases p with
      | none => exact absurd hl (lookupN_sound _ k hr)
      | some request0 =>
        obtain ⟨b1, hd, hs1, _⟩ := deleteN_ok backend a request0.Id h hr
        exact ⟨_, none, by simp only [hd]; rfl, soundBackend_completed b1 _ hs1⟩
  · exact ⟨backend, _, rfl, h⟩

theorem soundWorld_WorldN : SoundWorld WorldN := by
  intro b p h
  simp [WorldN] at h

/-- On a sound registry the checked iteration returns, and the registry it leaves is sound. -/
theorem readUpdateN_ok (W : BackendMapN) (a : String) (now : Int) (u : BackendUpdate)
    (h : SoundWorld W) :
    ∃ W1 line, readUpdateN W a now u = Except.ok (W1, line) ∧ SoundWorld W1 := by
  unfold readUpdateN
  split
  · exact ⟨W, _, rfl, h⟩
  · have hptr : ∃ backend,
        (match W.lookup u.B with
          | some p => p
          | none => some { Ipport := u.B, Completed := [], InFlight := some ∅ })
          = some backend ∧ SoundBackend backend := by
      cases hl : W.lookup u.B with
      | some p =>
        obtain ⟨backend, hp, hs⟩ := h u.B p hl
        exact ⟨backend, hp, hs⟩
      | none =>
        refine ⟨_, rfl, ∅, rfl, ?_⟩
        intro s requests hs
        rw [Finmap.lookup_empty] at hs
        cases hs
    obtain ⟨backend, hp, hs⟩ := hptr
    obtain ⟨b1, he, hs1, hr1⟩ := ensureReceiverN_ok backend a hs
    obtain ⟨b2, line, hsw, hs2⟩ := switchUpdateN_ok b1 a now (Itoa u.I) u hs1 hr1
    simp only [hp, he, hsw]
    refine ⟨_, line, rfl, ?_⟩
    intro b p hb
    by_cases hbb : b = u.B
    · subst hbb
      rw [Finmap.lookup_insert] at hb
      cases hb
      exact ⟨b2, rfl, hs2⟩
    · rw [Finmap.lookup_insert_of_ne _ hbb] at hb
      exact h b p hb

theorem soundWorld_of_reachableN (W : BackendMapN) (h : ReachableN W) : SoundWorld W := by
  induction h with
  | init => exact soundWorld_WorldN
  | step a now u _ hstep ih =>
    obtain ⟨W1, line, hok, hs⟩ := readUpdateN_ok _ a now u ih
    rw [hok] at hstep
    cases hstep
    exact hs

theorem lookupN_ensureReceiverN (backend backend1 : BackendN) (a : String) (k : RequestId)
    (h : ensureReceiverN backend a = Except.ok backend1) :
    lookupN (requestsN backend1 a) k = lookupN (requestsN backend a) k := by
  unfold ensureReceiverN at h
  cases hfl : backend.InFlight with
  | none => simp only [hfl] at h; cases h
  | some receivers =>
    cases hl : receivers.lookup a with
    | some requests =>
      simp only [hfl, hl] at h
      cases h
      rfl
    | none =>
      simp only [hfl, hl] at h
      cases h
      simp only [requestsN, hfl, hl, Finmap.lookup_insert, lookupN, Finmap.lookup_empty]

theorem switchUpdateN_finish_miss (backend : BackendN) (a : String) (now : Int)
    (k : RequestId) (u : BackendUpdate) (hC : u.C = 2)
    (hl : lookupN (requestsN backend a) k = none) :
    switchUpdateN backend a now k u = Except.ok (backend, some (LogLine.unknownId k)) := by
  simp only [switchUpdateN, hC, hl]

theorem reachable_worldStartedN : ReachableN worldStartedN :=
  ReachableN.step startOne.addr startOne.now startOne.update ReachableN.init
    (by rfl : readUpdateN WorldN startOne.addr startOne.now startOne.update
      = Except.ok (worldStartedN, none))

/-! ## The checked iteration computes the same registry -/

theorem reprRequests_empty : ReprRequests (some ∅) ∅ :=
  ⟨∅, rfl, fun k => by simp [Finmap.lookup_empty]⟩

theorem reprRequests_read (backendN : BackendN) (backend : Backend) (a : String)
    (m0 : RequestMap) (h : ReprBackend backendN backend)
    (ha : backend.InFlight.lookup a = some m0) :
    ReprRequests (requestsN backendN a) (inFlightOf backend a) := by
  obtain ⟨_, _, receivers, hfl, hs⟩ := h
  rcases hs a with ⟨_, h2⟩ | ⟨requests, m, h1, h2, hr⟩
  · rw [ha] at h2; cases h2
  · simp only [requestsN, hfl, h1, inFlightOf, h2, Option.getD_some]
    exact hr

/-- Writing matching request maps for the sender and the same `Completed` on both sides
keeps the two backends matched. -/
theorem reprBackend_write (backendN : BackendN) (backend : Backend)
    (receivers : Finmap (fun _ : String => RequestMapN)) (a : String)
    (requests : RequestMapN) (m : RequestMap) (completed : List Request)
    (h : ReprBackend backendN backend) (hfl : backendN.InFlight = some receivers)
    (hr : ReprRequests requests m) :
    ReprBackend
      { Ipport := backendN.Ipport, Completed := completed,
        InFlight := some (receivers.insert a requests) }
      { Ipport := backend.Ipport, Completed := completed,
        InFlight := backend.InFlight.insert a m } := by
  obtain ⟨hi, _, receivers0, hfl0, hs⟩ := h
  rw [hfl] at hfl0
  cases hfl0
  refine ⟨hi, rfl, _, rfl, ?_⟩
  intro s
  by_cases hsa : s = a
  · subst hsa
    right
    exact ⟨requests, m, Finmap.lookup_insert _, Finmap.lookup_insert _, hr⟩
  · simp only [Finmap.lookup_insert_of_ne _ hsa]
    exact hs s

theorem ensureReceiverN_repr (backendN : BackendN) (backend : Backend) (a : String)
    (h : ReprBackend backendN backend) :
    ∃ backend1, ensureReceiverN backendN a = Except.ok backend1 ∧
      ReprBackend backend1 (ensureReceiver backend a) ∧
      ∃ m0, (ensureReceiver backend a).InFlight.lookup a = some m0 := by
  obtain ⟨hi, hc, receivers, hfl, hs⟩ := h
  rcases hs a with ⟨h1, h2⟩ | ⟨requests, m, h1, h2, hr⟩
  · refine ⟨{ backendN with InFlight := some (receivers.insert a (some ∅)) },
      by simp only [ensureReceiverN, hfl, h1], ?_, ?_⟩
    · have := reprBackend_write backendN backend receivers a (some ∅) ∅ backendN.Completed
        ⟨hi, hc, receivers, hfl, hs⟩ hfl reprRequests_empty
      simp only [ensureReceiver, h2]
      rw [hc] at this ⊢
      exact this
    · simp only [ensureReceiver, h2]
      exact ⟨∅, Finmap.lookup_insert _⟩
  · refine ⟨backendN, by simp only [ensureReceiverN, hfl, h1], ?_, ?_⟩
    · simp only [ensureReceiver, h2]
      exact ⟨hi, hc, receivers, hfl, hs⟩
    · simp only [ensureReceiver, h2]
      exact ⟨m, rfl⟩

theorem storeN_repr (backendN : BackendN) (backend : Backend) (a : String) (k : RequestId)
    (request : Request) (h : ReprBackend backendN backend)
    (hr : ReprRequests (requestsN backendN a) (inFlightOf backend a)) :
    ∃ backend1, storeN backendN a k (some request) = Except.ok backend1 ∧
      ReprBackend backend1 (setInFlight backend a ((inFlightOf backend a).insert k request)) := by
  obtain ⟨receivers, hfl⟩ := h.2.2.imp fun _ h => h.1
  obtain ⟨mN, hm, hl⟩ := hr
  simp only [requestsN, hfl] at hm
  cases hl0 : receivers.lookup a with
  | none => rw [hl0] at hm; cases hm
  | some requests =>
    rw [hl0] at hm
    simp only at hm
    subst hm
    refine ⟨{ backendN with InFlight := some (receivers.insert a (some (mN.insert k (some request)))) },
      by simp only [storeN, hfl, hl0], ?_⟩
    have := reprBackend_write backendN backend receivers a
      (some (mN.insert k (some request))) ((inFlightOf backend a).insert k request)
      backendN.Completed h hfl ⟨_, rfl, ?_⟩
    · rw [h.2.1] at this ⊢
      exact this
    · intro k1
      by_cases hk : k1 = k
      · subst hk; simp only [Finmap.lookup_insert, Option.map_some']
      · simp only [Finmap.lookup_insert_of_ne _ hk]; exact hl k1

theorem deleteN_repr (backendN : BackendN) (backend : Backend) (a : String) (k : RequestId)
    (h : ReprBackend backendN backend)
    (hr : ReprRequests (requestsN backendN a) (inFlightOf backend a)) :
    ∃ backend1, deleteN backendN a k = Except.ok backend1 ∧
      ReprBackend backend1 (setInFlight backend a ((inFlightOf backend a).erase k)) := by
  obtain ⟨receivers, hfl⟩ := h.2.2.imp fun _ h => h.1
  obtain ⟨mN, hm, hl⟩ := hr
  simp only [requestsN, hfl] at hm
  cases hl0 : receivers.lookup a with
  | none => rw [hl0] at hm; cases hm
  | some requests =>
    rw [hl0] at hm
    simp only at hm
    subst hm
    refine ⟨{ backendN with InFlight := some (receivers.insert a (some (mN.erase k))) },
      by simp only [deleteN, hfl, hl0], ?_⟩
    have := reprBackend_write backendN backend receivers a
      (some (mN.erase k)) ((inFlightOf backend a).erase k) backendN.Completed h hfl ⟨_, rfl, ?_⟩
    · rw [h.2.1] at this ⊢
      exact this
    · intro k1
      by_cases hk : k1 = k
      · subst hk; simp only [Finmap.lookup_erase, Option.map_none']
      · simp only [Finmap.lookup_erase_ne hk]; exact hl k1

theorem reprBackend_completed (backendN : BackendN) (backend : Backend)
    (completed : List Request) (h : ReprBackend backendN backend) :
    ReprBackend { backendN with Completed := completed }
      { backend with Completed := completed } := by
  obtain ⟨hi, _, receivers, hfl, hs⟩ := h
  exact ⟨hi, rfl, receivers, hfl, hs⟩

theorem lookupN_repr (requests : RequestMapN) (m : RequestMap) (k : RequestId)
    (h : ReprRequests requests m) : lookupN requests k = (m.lookup k).map some := by
  obtain ⟨mN, hm, hl⟩ := h
  subst hm
  exact hl k

theorem switchUpdateN_repr (backendN : BackendN) (backend : Backend) (a : String) (now : Int)
    (k : RequestId) (u : BackendUpdate) (h : ReprBackend backendN backend)
    (hr : ReprRequests (requestsN backendN a) (inFlightOf backend a)) :
    ∃ backend1 line, switchUpdateN backendN a now k u = Except.ok (backend1, line) ∧
      ReprBackend backend1 (switchUpdate backend a now k u) := by
  have hlook := lookupN_repr _ _ k hr
  by_cases h1 : u.C = 1
  · cases hl : (inFlightOf backend a).lookup k with
    | none =>
      rw [hl] at hlook
      obtain ⟨b1, hst, hrep⟩ := storeN_repr backendN backend a k
        { Id := k, Uri := u.U, Time := Float64.zero, StartTime := now, ResponseCode := 0 } h hr
      refine ⟨b1, none, by simp only [switchUpdateN, h1, hlook, hst, Option.map_none'], ?_⟩
      rw [switchUpdate_start_new backend a now k u h1 hl]
      exact hrep
    | some r =>
      rw [hl] at hlook
      obtain ⟨b1, hd, hrep⟩ := deleteN_repr backendN backend a k h hr
      refine ⟨b1, some (LogLine.duplicateId k),
        by simp only [switchUpdateN, h1, hlook, hd, Option.map_some'], ?_⟩
      rw [switchUpdate_start_dup backend a now k u r h1 hl]
      exact hrep
  · by_cases h2 : u.C = 2
    · cases hl : (inFlightOf backend a).lookup k with
      | none =>
        rw [hl] at hlook
        refine ⟨backendN, some (LogLine.unknownId k),
          by simp only [switchUpdateN, h2, hlook, Option.map_none'], ?_⟩
        rw [switchUpdate_finish_none backend a now k u h2 hl]
        exact h
      | some r =>
        rw [hl] at hlook
        obtain ⟨b1, hd, hrep⟩ := deleteN_repr backendN backend a r.Id h hr
        have hc : b1.Completed = backend.Completed := hrep.2.1
        refine ⟨BackendN.mk b1.Ipport
          (pushCompleted backend.Completed { r with Time := u.T, ResponseCode := uint16 u.R })
          b1.InFlight, none, ?_, ?_⟩
        · simp only [switchUpdateN, h2, hlook, hd, Option.map_some', hc]
        · rw [switchUpdate_finish_some backend a now k u r h2 hl]
          exact reprBackend_completed b1 _ _ hrep
    · refine ⟨backendN, some (LogLine.unknownType u.C), ?_, ?_⟩
      · unfold switchUpdateN
        split
        · exact absurd (by assumption) h1
        · exact absurd (by assumption) h2
        · rfl
      · rw [switchUpdate_other backend a now k u h1 h2]
        exact h

theorem represents_WorldN : Represents WorldN World := by
  intro b
  left
  exact ⟨Finmap.lookup_empty _, Finmap.lookup_empty _⟩

/-- The checked iteration returns, and the registry it leaves is the registry `readUpdate`
computes: reading pointers by value loses nothing. -/
theorem readUpdateN_represents (WN : BackendMapN) (W : BackendMap) (a : String) (now : Int)
    (u : BackendUpdate) (h : Represents WN W) :
    ∃ W1 line, readUpdateN WN a now u = Except.ok (W1, line) ∧
      Represents W1 (readUpdate W a now u) := by
  by_cases hB : u.B.length = 0
  · exact ⟨WN, some LogLine.invalidStructure, by simp only [readUpdateN, hB, if_true],
      by rw [readUpdate_empty_B W a now u hB]; exact h⟩
  have hptr : ∃ backendN,
      (match WN.lookup u.B with
        | some p => p
        | none => some { Ipport := u.B, Completed := [], InFlight := some ∅ })
        = some backendN ∧ ReprBackend backendN (getBackend W u.B) := by
    rcases h u.B with ⟨h1, h2⟩ | ⟨backendN, backend, h1, h2, hr⟩
    · rw [h1, getBackend_of_absent W _ h2]
      refine ⟨_, rfl, rfl, rfl, ∅, rfl, ?_⟩
      intro s
      left
      exact ⟨Finmap.lookup_empty _, Finmap.lookup_empty _⟩
    · rw [h1, getBackend_of_lookup W _ backend h2]
      exact ⟨backendN, rfl, hr⟩
  obtain ⟨backendN, hp, hrep⟩ := hptr
  obtain ⟨b1, he, hrep1, m0, hm0⟩ := ensureReceiverN_repr backendN _ a hrep
  have hreq := reprRequests_read b1 _ a m0 hrep1 hm0
  obtain ⟨b2, line, hsw, hrep2⟩ := switchUpdateN_repr b1 _ a now (Itoa u.I) u hrep1 hreq
  refine ⟨WN.insert u.B (some b2), line, by simp only [readUpdateN, hB, if_false, hp, he, hsw], ?_⟩
  intro b
  by_cases hb : b = u.B
  · subst hb
    right
    exact ⟨b2, _, Finmap.lookup_insert _, lookup_readUpdate_self W a now u hB, hrep2⟩
  · rw [Finmap.lookup_insert_of_ne _ hb, lookup_readUpdate_of_ne W a now u b hb]
    exact h b

/-- Every registry the checked loop reaches stands for a registry the loop of
`readUpdate` reaches. -/
theorem represents_of_reachableN (WN : BackendMapN) (h : ReachableN WN) :
    ∃ W, Reachable W ∧ Represents WN W := by
  induction h with
  | init => exact ⟨World, Reachable.init, represents_WorldN⟩
  | step a now u _ hstep ih =>
    obtain ⟨W, hW, hrep⟩ := ih
    obtain ⟨W1, line, hok, hrep1⟩ := readUpdateN_represents _ W a now u hrep
    rw [hok] at hstep
    cases hstep
    exact ⟨readUpdate W a now u, Reachable.step a now u hW, hrep1⟩

/-! ## The claims -/

/-- C1: in every registry reachable from the empty registry by any finite sequence of
decoded updates, the `Completed` sequence of every backend has length at most 500. -/
theorem completed_length_le_500 (W : BackendMap) (h : Reachable W) (b : BackendIpport)
    (backend : Backend) (hb : W.lookup b = some backend) : backend.Completed.length ≤ 500 := by
  have := completedBounded_of_reachable W h b
  simpa [completedOf, hb] using this

theorem completed_length_le_500_witness :
    Reachable worldFinished ∧
    worldFinished.lookup "10.0.0.1:80" = some backendFinished ∧
    backendFinished.Completed.length ≤ 500 :=
  ⟨reachable_worldFinished, by decide,
    completed_length_le_500 worldFinished reachable_worldFinished "10.0.0.1:80" backendFinished
      (by decide)⟩

/-- C2: in a reachable registry with an in-flight entry `r` under `(b, s, i)`, a finished
update (code 2) for `(b, s, i)` with elapsed time `t` removes exactly that entry from the
in-flight map of `(b, s)`, and the new `Completed` sequence of `b` is the first 500 elements
of `promoted :: old Completed`, where `promoted` has the `Id`, `Uri` and `StartTime` of `r`,
`Time = t` (and the converted status as `ResponseCode`). -/
theorem finished_promotes (W : BackendMap) (h : Reachable W) (b : BackendIpport) (s : String)
    (i : Int) (r : Request) (hr : inFlightAt W b s (Itoa i) = some r)
    (now : Int) (t : Float64) (R : Int) (U : String) :
    requestsOf (readUpdate W s now ⟨i, b, 2, t, R, U⟩) b s = (requestsOf W b s).erase (Itoa i) ∧
    completedOf (readUpdate W s now ⟨i, b, 2, t, R, U⟩) b
      = ({ Id := r.Id, Uri := r.Uri, Time := t, StartTime := r.StartTime,
           ResponseCode := uint16 R } :: completedOf W b).take 500 := by
  have hB : b.length ≠ 0 := named_of_inFlightAt W (backendsNamed_of_reachable W h) b s _ r hr
  have hId : r.Id = Itoa i := keyedById_of_reachable W h b s _ r hr
  have hs := readUpdate_finish_some W s now ⟨i, b, 2, t, R, U⟩ r hB rfl hr
  refine ⟨?_, ?_⟩
  · rw [← hId]; exact hs.1
  · rw [← pushCompleted_eq_take _ _ (completedBounded_of_reachable W h b)]
    exact hs.2

theorem finished_promotes_witness :
    Reachable worldStarted ∧
    inFlightAt worldStarted "10.0.0.1:80" "10.0.0.9:5000" (Itoa 1) = some requestOne ∧
    (requestsOf (readUpdate worldStarted "10.0.0.9:5000" 2000
        ⟨1, "10.0.0.1:80", 2, ⟨4602678819172646912⟩, 200, ""⟩) "10.0.0.1:80" "10.0.0.9:5000"
      = (requestsOf worldStarted "10.0.0.1:80" "10.0.0.9:5000").erase (Itoa 1) ∧
    completedOf (readUpdate worldStarted "10.0.0.9:5000" 2000
        ⟨1, "10.0.0.1:80", 2, ⟨4602678819172646912⟩, 200, ""⟩) "10.0.0.1:80"
      = ({ Id := requestOne.Id, Uri := requestOne.Uri, Time := ⟨4602678819172646912⟩,
           StartTime := requestOne.StartTime, ResponseCode := uint16 200 }
          :: completedOf worldStarted "10.0.0.1:80").take 500) :=
  ⟨reachable_worldStarted, by decide,
    finished_promotes worldStarted reachable_worldStarted "10.0.0.1:80" "10.0.0.9:5000" 1
      requestOne (by decide) 2000 ⟨4602678819172646912⟩ 200 ""⟩

/-- C3: from the empty registry, after a sequence of start+finish pairs with pairwise
distinct `requestSeq` values sent by one sender `s` for one backend `b` (a non-empty
identity), each started followed later by its matching finished and no other updates, with
`n` the number of completed pairs: the `Completed` sequence of `b` is the newest-first
listing of the `min n 500` most recently completed requests (`completions` lists one record
per finished update, oldest first), its length is `min n 500`, and for `n = 501` the
first-completed request is absent while the other 500 remain. -/
theorem completed_is_newest_500 (b : BackendIpport) (s : String) (ds : List Datagram)
    (hB : b.length ≠ 0) (hs : OneStream b s ds) (hn : (startedIds ds).Nodup)
    (hm : (finishedIds ds).Nodup) (hf : FinishFollowsStart ds) :
    completedOf (readUpdates World ds) b = (completions ds).reverse.take 500 ∧
    (completions ds).map (fun c => c.Id) = (finishedIds ds).map Itoa ∧
    (completedOf (readUpdates World ds) b).length = min (finishedIds ds).length 500 ∧
    ((finishedIds ds).length = 501 → ∀ c, (completions ds).head? = some c →
      c ∉ completedOf (readUpdates World ds) b ∧
      completedOf (readUpdates World ds) b = (completions ds).tail.reverse) := by
  have h1 := completed_of_stream b s ds hB hs hn hm hf
  have h2 := completions_ids ds hf
  have hlen : (completions ds).length = (finishedIds ds).length := by
    have := congrArg List.length h2
    simpa using this
  have hnd : (completions ds).Nodup := by
    apply List.Nodup.of_map (fun c => c.Id)
    rw [h2]
    exact hm.map Itoa_injective
  refine ⟨h1, h2, ?_, ?_⟩
  · rw [h1, List.length_take, List.length_reverse, hlen, Nat.min_comm]
  · intro h501 c hc
    rw [h1]
    cases hcs : completions ds with
    | nil => rw [hcs] at hc; cases hc
    | cons x tl =>
      rw [hcs] at hc hlen hnd
      simp only [List.head?_cons, Option.some.injEq] at hc
      subst hc
      have htl : tl.reverse.length = 500 := by
        simp only [List.length_cons] at hlen
        rw [List.length_reverse]
        omega
      have htake : (x :: tl).reverse.take 500 = tl.reverse := by
        rw [List.reverse_cons, ← htl, List.take_left]
      rw [htake]
      refine ⟨?_, rfl⟩
      rw [List.mem_reverse]
      exact (List.nodup_cons.mp hnd).1

theorem completed_is_newest_500_witness :
    ("10.0.0.1:80" : String).length ≠ 0 ∧
    OneStream "10.0.0.1:80" "10.0.0.9:5000" twoPairs ∧
    (startedIds twoPairs).Nodup ∧ (finishedIds twoPairs).Nodup ∧
    FinishFollowsStart twoPairs ∧
    (completedOf (readUpdates World twoPairs) "10.0.0.1:80"
        = (completions twoPairs).reverse.take 500 ∧
    (completions twoPairs).map (fun c => c.Id) = (finishedIds twoPairs).map Itoa ∧
    (completedOf (readUpdates World twoPairs) "10.0.0.1:80").length
        = min (finishedIds twoPairs).length 500 ∧
    ((finishedIds twoPairs).length = 501 → ∀ c, (completions twoPairs).head? = some c →
      c ∉ completedOf (readUpdates World twoPairs) "10.0.0.1:80" ∧
      completedOf (readUpdates World twoPairs) "10.0.0.1:80"
        = (completions twoPairs).tail.reverse)) :=
  ⟨by decide, by unfold OneStream; decide, by decide, by decide,
    by unfold FinishFollowsStart; decide,
    completed_is_newest_500 "10.0.0.1:80" "10.0.0.9:5000" twoPairs (by decide)
      (by unfold OneStream; decide) (by decide) (by decide)
      (by unfold FinishFollowsStart; decide)⟩

/-- C4: in a reachable registry with an in-flight entry under `(b, s, i)`, a started update
(code 1) for `(b, s, i)` leaves no in-flight entry under `(b, s, i)` (the occupant is removed,
the new request is not stored), leaves every other in-flight entry unchanged, and leaves the
`Completed` sequence of `b` (and of every backend) unchanged. -/
theorem duplicate_start_discards_both (W : BackendMap) (h : Reachable W) (b : BackendIpport)
    (s : String) (i : Int) (r : Request) (hr : inFlightAt W b s (Itoa i) = some r)
    (now : Int) (T : Float64) (R : Int) (U : String) :
    inFlightAt (readUpdate W s now ⟨i, b, 1, T, R, U⟩) b s (Itoa i) = none ∧
    (∀ b1 s1 k, (b1, s1, k) ≠ (b, s, Itoa i) →
      inFlightAt (readUpdate W s now ⟨i, b, 1, T, R, U⟩) b1 s1 k = inFlightAt W b1 s1 k) ∧
    (∀ b1, completedOf (readUpdate W s now ⟨i, b, 1, T, R, U⟩) b1 = completedOf W b1) := by
  have hB : b.length ≠ 0 := named_of_inFlightAt W (backendsNamed_of_reachable W h) b s _ r hr
  have hs := readUpdate_start_dup W s now ⟨i, b, 1, T, R, U⟩ r hB rfl hr
  refine ⟨?_, ?_, ?_⟩
  · unfold inFlightAt
    rw [hs.1]
    exact Finmap.lookup_erase _ _
  · intro b1 s1 k hne
    unfold inFlightAt
    by_cases hb : b1 = b
    swap
    · rw [requestsOf_readUpdate_of_ne W s now _ b1 s1 hb]
    subst hb
    by_cases hs1 : s1 = s
    swap
    · rw [requestsOf_readUpdate_of_ne_sender W s now _ b1 s1 hs1]
    subst hs1
    have hk : k ≠ Itoa i := fun hk => hne (by rw [hk])
    rw [hs.1]
    exact Finmap.lookup_erase_ne hk
  · intro b1
    by_cases hb : b1 = b
    · subst hb; exact hs.2
    · exact completedOf_readUpdate_of_ne W s now _ b1 hb

theorem duplicate_start_discards_both_witness :
    Reachable worldStarted ∧
    inFlightAt worldStarted "10.0.0.1:80" "10.0.0.9:5000" (Itoa 1) = some requestOne ∧
    (inFlightAt (readUpdate worldStarted "10.0.0.9:5000" 3000
        ⟨1, "10.0.0.1:80", 1, Float64.zero, 0, "/y"⟩) "10.0.0.1:80" "10.0.0.9:5000" (Itoa 1)
      = none ∧
    (∀ b1 s1 k, (b1, s1, k) ≠ ("10.0.0.1:80", "10.0.0.9:5000", Itoa 1) →
      inFlightAt (readUpdate worldStarted "10.0.0.9:5000" 3000
        ⟨1, "10.0.0.1:80", 1, Float64.zero, 0, "/y"⟩) b1 s1 k = inFlightAt worldStarted b1 s1 k) ∧
    (∀ b1, completedOf (readUpdate worldStarted "10.0.0.9:5000" 3000
        ⟨1, "10.0.0.1:80", 1, Float64.zero, 0, "/y"⟩) b1 = completedOf worldStarted b1)) :=
  ⟨reachable_worldStarted, by decide,
    duplicate_start_discards_both worldStarted reachable_worldStarted "10.0.0.1:80"
      "10.0.0.9:5000" 1 requestOne (by decide) 3000 Float64.zero 0 "/y"⟩

/-- C5, as stated, fails: on the empty registry a finished update with no in-flight entry
still builds the backend entry and the sender's request map, so the registry changes. -/
theorem unknown_finish_mutates_empty_registry :
    inFlightAt World "10.0.0.1:80" "10.0.0.9:5000" (Itoa 7) = none ∧
    readUpdate World "10.0.0.9:5000" 0 ⟨7, "10.0.0.1:80", 2, Float64.zero, 200, ""⟩ ≠ World := by
  decide

/-- C5, amended: a finished update (code 2) whose `(backend, sender, requestSeq)` has no
in-flight entry changes no in-flight request map and no `Completed` sequence; all it can do is
build the missing backend entry and the sender's empty request map, so on a registry that
already holds the backend with a request map for the sender the registry after the update
equals the registry before it. -/
theorem unknown_finish_no_mutation (W : BackendMap) (s : String) (now : Int)
    (i : Int) (b : BackendIpport) (t : Float64) (R : Int) (U : String)
    (h : inFlightAt W b s (Itoa i) = none) :
    (∀ b1 s1, requestsOf (readUpdate W s now ⟨i, b, 2, t, R, U⟩) b1 s1 = requestsOf W b1 s1) ∧
    (∀ b1, completedOf (readUpdate W s now ⟨i, b, 2, t, R, U⟩) b1 = completedOf W b1) ∧
    (∀ backend m, W.lookup b = some backend → backend.InFlight.lookup s = some m →
      readUpdate W s now ⟨i, b, 2, t, R, U⟩ = W) := by
  refine ⟨fun b1 s1 => (readUpdate_finish_none W s now ⟨i, b, 2, t, R, U⟩ rfl h b1 s1).1,
    fun b1 => (readUpdate_finish_none W s now ⟨i, b, 2, t, R, U⟩ rfl h b1 s).2, ?_⟩
  intro backend m hb hm
  unfold readUpdate
  split
  · rfl
  · have hg : getBackend W b = backend := by simp [getBackend, hb]
    have he : ensureReceiver backend s = backend := by simp [ensureReceiver, hm]
    have hl : (inFlightOf backend s).lookup (Itoa i) = none := by
      simpa [inFlightAt, requestsOf, hb] using h
    show W.insert b (switchUpdate (ensureReceiver (getBackend W b) s) s now (Itoa i) _) = W
    rw [hg, he, switchUpdate_finish_none backend s now (Itoa i) _ rfl hl]
    exact finmap_insert_lookup_self W b backend hb

theorem unknown_finish_no_mutation_witness :
    inFlightAt worldFinished "10.0.0.1:80" "10.0.0.9:5000" (Itoa 1) = none ∧
    worldFinished.lookup "10.0.0.1:80" = some backendFinished ∧
    backendFinished.InFlight.lookup "10.0.0.9:5000" = some ∅ ∧
    readUpdate worldFinished "10.0.0.9:5000" 0 ⟨1, "10.0.0.1:80", 2, Float64.zero, 200, ""⟩
      = worldFinished :=
  ⟨by decide, by decide, by decide,
    (unknown_finish_no_mutation worldFinished "10.0.0.9:5000" 0 1 "10.0.0.1:80" Float64.zero 200 ""
      (by decide)).2.2 backendFinished ∅ (by decide) (by decide)⟩

/-- C6, as stated, fails: after request 1 of a backend has been started, finished and
started again, `Id` `1` is both in the sender's in-flight map and in `Completed`. -/
theorem reused_id_in_flight_and_completed :
    Reachable (readUpdates World [startOne, finishOne, startOneAgain]) ∧
    ∃ r c, inFlightAt (readUpdates World [startOne, finishOne, startOneAgain])
        "10.0.0.1:80" "10.0.0.9:5000" "1" = some r ∧
      c ∈ completedOf (readUpdates World [startOne, finishOne, startOneAgain]) "10.0.0.1:80" ∧
      r.Id = c.Id :=
  ⟨reachable_readUpdates _ _ Reachable.init,
    { Id := "1", Uri := "/z", Time := Float64.zero, StartTime := 3000, ResponseCode := 0 },
    completedOne, by decide, by decide, by decide⟩

/-- C6, amended: in every registry reached from the empty registry by a finite sequence of
updates in which no two started updates for the same backend carry the same `requestSeq`
(the id of a request is unique for its backend, never reused), no `Id` stored in any
sender's in-flight map of a backend equals the `Id` of a record in that backend's
`Completed` sequence. -/
theorem inFlight_ids_not_completed (ds : List Datagram) (hn : (startedKeys ds).Nodup)
    (b : BackendIpport) (s : String) (k : RequestId) (r : Request)
    (hr : inFlightAt (readUpdates World ds) b s k = some r) :
    ∀ c ∈ completedOf (readUpdates World ds) b, c.Id ≠ r.Id :=
  (idsTracked_readUpdates ds hn).2.2.1 b s k r hr

theorem inFlight_ids_not_completed_witness :
    (startedKeys [startOne, startTwo, finishOne]).Nodup ∧
    inFlightAt (readUpdates World [startOne, startTwo, finishOne])
      "10.0.0.1:80" "10.0.0.9:5000" "2" = some (startRecord startTwo) ∧
    ∀ c ∈ completedOf (readUpdates World [startOne, startTwo, finishOne]) "10.0.0.1:80",
      c.Id ≠ (startRecord startTwo).Id :=
  ⟨by decide, by decide,
    inFlight_ids_not_completed [startOne, startTwo, finishOne] (by decide) "10.0.0.1:80"
      "10.0.0.9:5000" "2" (startRecord startTwo) (by decide)⟩

/-- C7, as stated, fails: a matched finished update with status 70000 stores
`ResponseCode` 4464, the low 16 bits of the status. -/
theorem status_70000_is_truncated :
    inFlightAt worldStarted "10.0.0.1:80" "10.0.0.9:5000" (Itoa 1) = some requestOne ∧
    (completedOf (readUpdate worldStarted "10.0.0.9:5000" 2000
        ⟨1, "10.0.0.1:80", 2, Float64.zero, 70000, ""⟩) "10.0.0.1:80").map
      (fun c => (c.ResponseCode : Int)) = [4464] ∧
    (4464 : Int) ≠ 70000 := by
  decide

/-- C7, amended: for every matched finished update and every integer status `R`, the
`ResponseCode` of the resulting completed record (the head of `Completed`) is `R` converted to
`uint16`, that is `R mod 65536`; it equals `R` itself exactly for `0 ≤ R < 65536`, and no
other interpretation or validation is applied. -/
theorem status_stored_mod_65536 (W : BackendMap) (s : String) (now : Int) (i : Int)
    (b : BackendIpport) (t : Float64) (R : Int) (U : String) (r : Request)
    (hB : b.length ≠ 0) (h : inFlightAt W b s (Itoa i) = some r) :
    ∃ c, (completedOf (readUpdate W s now ⟨i, b, 2, t, R, U⟩) b).head? = some c ∧
      (c.ResponseCode : Int) = R % 65536 ∧
      ((c.ResponseCode : Int) = R ↔ (0 ≤ R ∧ R < 65536)) := by
  have hs := readUpdate_finish_some W s now ⟨i, b, 2, t, R, U⟩ r hB rfl h
  refine ⟨{ r with Time := t, ResponseCode := uint16 R }, ?_, ?_, ?_⟩
  · rw [hs.2]; exact head?_pushCompleted _ _
  · show ((uint16 R : Nat) : Int) = R % 65536
    unfold uint16
    omega
  · show ((uint16 R : Nat) : Int) = R ↔ _
    unfold uint16
    omega

theorem status_stored_mod_65536_witness :
    ("10.0.0.1:80" : String).length ≠ 0 ∧
    inFlightAt worldStarted "10.0.0.1:80" "10.0.0.9:5000" (Itoa 1) = some requestOne ∧
    ∃ c, (completedOf (readUpdate worldStarted "10.0.0.9:5000" 2000
        ⟨1, "10.0.0.1:80", 2, Float64.zero, -1, ""⟩) "10.0.0.1:80").head? = some c ∧
      (c.ResponseCode : Int) = (-1) % 65536 ∧
      ((c.ResponseCode : Int) = -1 ↔ (0 ≤ (-1 : Int) ∧ (-1 : Int) < 65536)) :=
  ⟨by decide, by decide,
    status_stored_mod_65536 worldStarted "10.0.0.9:5000" 2000 1 "10.0.0.1:80" Float64.zero (-1) ""
      requestOne (by decide) (by decide)⟩

/-- C9: on a registry with no in-flight entry under `(b, s, i)`, a started update (code 1) for
`(b, s, i)` (with `b` a backend identity that passes the loop's check, i.e. non-empty) with uri
`U` at time `now` stores exactly one new in-flight entry under `(b, s, i)`, with
`Id` the decimal rendering of `i`, `Uri = U`, `StartTime = now`, `Time = 0`,
`ResponseCode = 0`; the other entries of `(b, s)` are unchanged and the `Completed` sequence
of `b` is unchanged. -/
theorem fresh_start_stores_request (W : BackendMap) (s : String) (now : Int) (i : Int)
    (b : BackendIpport) (T : Float64) (R : Int) (U : String)
    (hB : b.length ≠ 0) (h : inFlightAt W b s (Itoa i) = none) :
    inFlightAt (readUpdate W s now ⟨i, b, 1, T, R, U⟩) b s (Itoa i)
      = some { Id := Itoa i, Uri := U, Time := Float64.zero, StartTime := now,
               ResponseCode := 0 } ∧
    (∀ k, k ≠ Itoa i →
      inFlightAt (readUpdate W s now ⟨i, b, 1, T, R, U⟩) b s k = inFlightAt W b s k) ∧
    inFlightCount (readUpdate W s now ⟨i, b, 1, T, R, U⟩) b s = inFlightCount W b s + 1 ∧
    completedOf (readUpdate W s now ⟨i, b, 1, T, R, U⟩) b = completedOf W b := by
  have hs := readUpdate_start_new W s now ⟨i, b, 1, T, R, U⟩ hB rfl h
  refine ⟨?_, ?_, ?_, hs.2⟩
  · unfold inFlightAt
    rw [hs.1]
    exact Finmap.lookup_insert _
  · intro k hk
    unfold inFlightAt
    rw [hs.1]
    exact Finmap.lookup_insert_of_ne _ hk
  · unfold inFlightCount
    rw [hs.1]
    exact finmap_card_insert _ _ _ h

theorem fresh_start_stores_request_witness :
    ("10.0.0.1:80" : String).length ≠ 0 ∧
    inFlightAt worldStarted "10.0.0.1:80" "10.0.0.9:5000" (Itoa (-2)) = none ∧
    (inFlightAt (readUpdate worldStarted "10.0.0.9:5000" 3000
        ⟨-2, "10.0.0.1:80", 1, Float64.zero, 0, "/y?q=1"⟩) "10.0.0.1:80" "10.0.0.9:5000" (Itoa (-2))
      = some { Id := Itoa (-2), Uri := "/y?q=1", Time := Float64.zero, StartTime := 3000,
               ResponseCode := 0 } ∧
    (∀ k, k ≠ Itoa (-2) →
      inFlightAt (readUpdate worldStarted "10.0.0.9:5000" 3000
        ⟨-2, "10.0.0.1:80", 1, Float64.zero, 0, "/y?q=1"⟩) "10.0.0.1:80" "10.0.0.9:5000" k
      = inFlightAt worldStarted "10.0.0.1:80" "10.0.0.9:5000" k) ∧
    inFlightCount (readUpdate worldStarted "10.0.0.9:5000" 3000
        ⟨-2, "10.0.0.1:80", 1, Float64.zero, 0, "/y?q=1"⟩) "10.0.0.1:80" "10.0.0.9:5000"
      = inFlightCount worldStarted "10.0.0.1:80" "10.0.0.9:5000" + 1 ∧
    completedOf (readUpdate worldStarted "10.0.0.9:5000" 3000
        ⟨-2, "10.0.0.1:80", 1, Float64.zero, 0, "/y?q=1"⟩) "10.0.0.1:80"
      = completedOf worldStarted "10.0.0.1:80") :=
  ⟨by decide, by decide,
    fresh_start_stores_request worldStarted "10.0.0.9:5000" 3000 (-2) "10.0.0.1:80" Float64.zero 0
      "/y?q=1" (by decide) (by decide)⟩

/-- C10: a finished update (code 2) whose `(backend, sender, requestSeq)` has no in-flight
entry leaves the length of the backend's `Completed` sequence (0 for an absent backend) and
the in-flight count of that `(backend, sender)` unchanged; from the empty registry a lone
finished update leaves zero in-flight and zero completed entries for that backend. -/
theorem unknown_finish_keeps_counts (W : BackendMap) (s : String) (now : Int) (i : Int)
    (b : BackendIpport) (t : Float64) (R : Int) (U : String)
    (h : inFlightAt W b s (Itoa i) = none) :
    (completedOf (readUpdate W s now ⟨i, b, 2, t, R, U⟩) b).length = (completedOf W b).length ∧
    inFlightCount (readUpdate W s now ⟨i, b, 2, t, R, U⟩) b s = inFlightCount W b s ∧
    (completedOf (readUpdate World s now ⟨i, b, 2, t, R, U⟩) b).length = 0 ∧
    inFlightCount (readUpdate World s now ⟨i, b, 2, t, R, U⟩) b s = 0 := by
  have hW := readUpdate_finish_none W s now ⟨i, b, 2, t, R, U⟩ rfl h b s
  have h0 : inFlightAt World b s (Itoa i) = none := by
    simp [inFlightAt, requestsOf, World]
  have hE := readUpdate_finish_none World s now ⟨i, b, 2, t, R, U⟩ rfl h0 b s
  refine ⟨by rw [hW.2], by unfold inFlightCount; rw [hW.1], ?_, ?_⟩
  · rw [hE.2]; simp [completedOf, World]
  · unfold inFlightCount
    rw [hE.1]
    simp [requestsOf, World]

theorem unknown_finish_keeps_counts_witness :
    inFlightAt worldStarted "10.0.0.1:80" "10.0.0.9:5000" (Itoa 7) = none ∧
    ((completedOf (readUpdate worldStarted "10.0.0.9:5000" 0
        ⟨7, "10.0.0.1:80", 2, ⟨4607182418800017408⟩, 200, ""⟩) "10.0.0.1:80").length
      = (completedOf worldStarted "10.0.0.1:80").length ∧
    inFlightCount (readUpdate worldStarted "10.0.0.9:5000" 0
        ⟨7, "10.0.0.1:80", 2, ⟨4607182418800017408⟩, 200, ""⟩) "10.0.0.1:80" "10.0.0.9:5000"
      = inFlightCount worldStarted "10.0.0.1:80" "10.0.0.9:5000" ∧
    (completedOf (readUpdate World "10.0.0.9:5000" 0
        ⟨7, "10.0.0.1:80", 2, ⟨4607182418800017408⟩, 200, ""⟩) "10.0.0.1:80").length = 0 ∧
    inFlightCount (readUpdate World "10.0.0.9:5000" 0
        ⟨7, "10.0.0.1:80", 2, ⟨4607182418800017408⟩, 200, ""⟩) "10.0.0.1:80" "10.0.0.9:5000"
      = 0) :=
  ⟨by decide,
    unknown_finish_keeps_counts worldStarted "10.0.0.9:5000" 0 7 "10.0.0.1:80"
      ⟨4607182418800017408⟩ 200 "" (by decide)⟩

/-- C8: for every finite sequence of started and finished updates for one backend `b`
(a non-empty identity) from one sender `s`, applied to the empty registry, in which the
started updates carry pairwise distinct `requestSeq` values and each finished update follows
the started update with the same `requestSeq`, the number of entries of the in-flight map of
`(b, s)` is the number of started updates with no matching finished update in the sequence. -/
theorem inFlight_count_is_unmatched_starts (b : BackendIpport) (s : String)
    (ds : List Datagram) (hB : b.length ≠ 0) (hs : OneStream b s ds)
    (hn : (startedIds ds).Nodup) (hf : FinishFollowsStart ds) :
    inFlightCount (readUpdates World ds) b s
      = ((startedIds ds).filter (fun i => i ∉ finishedIds ds)).length := by
  unfold inFlightCount
  rw [keys_of_streamInFlight b s ds _ (streamInFlight_readUpdates b s ds hB hs hn hf),
    Finset.card_image_of_injective _ Itoa_injective,
    List.toFinset_card_of_nodup (hn.filter _)]

theorem inFlight_count_is_unmatched_starts_witness :
    ("10.0.0.1:80" : String).length ≠ 0 ∧
    OneStream "10.0.0.1:80" "10.0.0.9:5000" [startOne, startTwo, finishOne] ∧
    (startedIds [startOne, startTwo, finishOne]).Nodup ∧
    FinishFollowsStart [startOne, startTwo, finishOne] ∧
    inFlightCount (readUpdates World [startOne, startTwo, finishOne]) "10.0.0.1:80"
        "10.0.0.9:5000"
      = ((startedIds [startOne, startTwo, finishOne]).filter
          (fun i => i ∉ finishedIds [startOne, startTwo, finishOne])).length :=
  ⟨by decide, by unfold OneStream; decide, by decide, by unfold FinishFollowsStart; decide,
    inFlight_count_is_unmatched_starts "10.0.0.1:80" "10.0.0.9:5000"
      [startOne, startTwo, finishOne] (by decide) (by unfold OneStream; decide) (by decide)
      (by unfold FinishFollowsStart; decide)⟩

/-- C11, as stated, fails: on the empty registry an update of kind 3 with a non-empty
backend identity still builds the backend entry and the sender's request map. -/
theorem unknown_kind_mutates_empty_registry :
    ("10.0.0.1:80" : String).length ≠ 0 ∧ (3 : Nat) ≠ 1 ∧ (3 : Nat) ≠ 2 ∧
    readUpdate World "10.0.0.9:5000" 0 ⟨7, "10.0.0.1:80", 3, Float64.zero, 0, ""⟩ ≠ World := by
  decide

/-- C11, amended: an update whose kind byte is neither 1 nor 2 changes no in-flight request
map and no `Completed` sequence; all it can do is build the missing backend entry and the
sender's empty request map (done before the `switch` for every update with a non-empty
backend identity), so on a registry that already holds the backend with a request map for
the sender the registry after the update equals the registry before it. -/
theorem unknown_kind_no_mutation (W : BackendMap) (s : String) (now : Int)
    (u : BackendUpdate) (h1 : u.C ≠ 1) (h2 : u.C ≠ 2) :
    (∀ b1 s1, requestsOf (readUpdate W s now u) b1 s1 = requestsOf W b1 s1) ∧
    (∀ b1, completedOf (readUpdate W s now u) b1 = completedOf W b1) ∧
    (∀ backend m, W.lookup u.B = some backend → backend.InFlight.lookup s = some m →
      readUpdate W s now u = W) :=
  ⟨fun b1 s1 => (readUpdate_other W s now u h1 h2 b1 s1).1,
    fun b1 => (readUpdate_other W s now u h1 h2 b1 s).2,
    fun backend m hb hm =>
      readUpdate_eq_self_of_switch_noop W s now u backend m hb hm
        (switchUpdate_other backend s now (Itoa u.I) u h1 h2)⟩

theorem unknown_kind_no_mutation_witness :
    (3 : Nat) ≠ 1 ∧ (3 : Nat) ≠ 2 ∧
    worldFinished.lookup "10.0.0.1:80" = some backendFinished ∧
    backendFinished.InFlight.lookup "10.0.0.9:5000" = some ∅ ∧
    readUpdate worldFinished "10.0.0.9:5000" 0 ⟨7, "10.0.0.1:80", 3, Float64.zero, 0, ""⟩
      = worldFinished :=
  ⟨by decide, by decide, by decide, by decide,
    (unknown_kind_no_mutation worldFinished "10.0.0.9:5000" 0
      ⟨7, "10.0.0.1:80", 3, Float64.zero, 0, ""⟩ (by decide) (by decide)).2.2
      backendFinished ∅ (by decide) (by decide)⟩

/-- C12: a decoded update whose backend identity (field `B`) is the empty string is
discarded whatever its kind, id and other fields: the registry after the iteration equals the
registry before it, the loop goes on with the datagrams that follow, and no reachable
registry holds a backend entry with the empty identity. -/
theorem empty_backend_id_discarded (W : BackendMap) (s : String) (now : Int) (i : Int)
    (c : Nat) (t : Float64) (R : Int) (U : String) :
    readUpdate W s now ⟨i, "", c, t, R, U⟩ = W ∧
    (∀ ds, readUpdates W (⟨s, now, ⟨i, "", c, t, R, U⟩⟩ :: ds) = readUpdates W ds) ∧
    (Reachable W → W.lookup "" = none) := by
  have h0 : readUpdate W s now ⟨i, "", c, t, R, U⟩ = W :=
    readUpdate_empty_B W s now _ rfl
  refine ⟨h0, ?_, ?_⟩
  · intro ds
    rw [readUpdates_cons]
    show readUpdates (readUpdate W s now ⟨i, "", c, t, R, U⟩) ds = readUpdates W ds
    rw [h0]
  · intro hW
    cases hl : W.lookup "" with
    | none => rfl
    | some be => exact absurd rfl (backendsNamed_of_reachable W hW "" be hl)

/-- C14: every backend identity that has an entry in the registry before an update still
has one after it, whatever the update; so along any sequence of updates the set of backend
keys only grows. -/
theorem backend_never_deleted (W : BackendMap) (b : BackendIpport) (h : b ∈ W) :
    (∀ s now u, b ∈ readUpdate W s now u) ∧ (∀ ds, b ∈ readUpdates W ds) :=
  ⟨fun s now u => mem_readUpdate W s now u b h, fun ds => mem_readUpdates ds W b h⟩

theorem backend_never_deleted_witness :
    "10.0.0.1:80" ∈ worldStarted ∧
    ((∀ s now u, "10.0.0.1:80" ∈ readUpdate worldStarted s now u) ∧
      (∀ ds, "10.0.0.1:80" ∈ readUpdates worldStarted ds)) :=
  ⟨by decide, backend_never_deleted worldStarted "10.0.0.1:80" (by decide)⟩

/-- C17: the key of an in-flight request is the triple (backend, sender, requestSeq): for all
integers `i` and `j`, negative ones included, the decimal renderings `Itoa i` and `Itoa j`
are equal exactly when `i = j`; hence the slots `(b1, s1, Itoa i)` and `(b2, s2, Itoa j)`
coincide exactly when backend, sender and `requestSeq` all coincide, and on a reachable
registry an update leaves alone every slot whose triple differs from its own. -/
theorem request_key_is_triple (i j : Int) :
    (Itoa i = Itoa j ↔ i = j) ∧
    (∀ b1 s1 b2 s2 : String,
      (b1, s1, Itoa i) = (b2, s2, Itoa j) ↔ (b1, s1, i) = (b2, s2, j)) ∧
    (∀ W, Reachable W → ∀ (a : String) (now : Int) (u : BackendUpdate) (b s : String),
      (b, s, j) ≠ (u.B, a, u.I) →
      inFlightAt (readUpdate W a now u) b s (Itoa j) = inFlightAt W b s (Itoa j)) := by
  have hinj : Itoa i = Itoa j ↔ i = j :=
    ⟨fun h => Itoa_injective h, fun h => by rw [h]⟩
  refine ⟨hinj, ?_, ?_⟩
  · intro b1 s1 b2 s2
    simp only [Prod.mk.injEq, hinj]
  · intro W hW a now u b s hne
    apply inFlightAt_readUpdate_of_ne_key W (keyedById_of_reachable W hW)
    intro h
    simp only [Prod.mk.injEq] at h
    exact hne (by rw [h.1, h.2.1, Itoa_injective h.2.2])

/-- C18: in every reachable registry each in-flight request carries as `Id` the key under
which it is stored; consequently a matched finished update, which looks the request up by
the rendering of the update's id and deletes by the stored `Id`, deletes exactly the entry
it looked up and no other. -/
theorem stored_id_is_key (W : BackendMap) (h : Reachable W) :
    (∀ b s k r, inFlightAt W b s k = some r → r.Id = k) ∧
    (∀ (s : String) (now : Int) (u : BackendUpdate) (r : Request), u.C = 2 →
      inFlightAt W u.B s (Itoa u.I) = some r →
      requestsOf (readUpdate W s now u) u.B s = (requestsOf W u.B s).erase (Itoa u.I) ∧
      inFlightAt (readUpdate W s now u) u.B s (Itoa u.I) = none ∧
      ∀ k, k ≠ Itoa u.I → inFlightAt (readUpdate W s now u) u.B s k = inFlightAt W u.B s k) := by
  have hK := keyedById_of_reachable W h
  refine ⟨hK, ?_⟩
  intro s now u r hC hr
  have hB : u.B.length ≠ 0 :=
    named_of_inFlightAt W (backendsNamed_of_reachable W h) u.B s _ r hr
  have hId : r.Id = Itoa u.I := hK u.B s _ r hr
  have he : requestsOf (readUpdate W s now u) u.B s = (requestsOf W u.B s).erase (Itoa u.I) := by
    rw [← hId]; exact (readUpdate_finish_some W s now u r hB hC hr).1
  refine ⟨he, ?_, ?_⟩
  · unfold inFlightAt; rw [he]; exact Finmap.lookup_erase _ _
  · intro k hk
    unfold inFlightAt; rw [he]; exact Finmap.lookup_erase_ne hk

theorem stored_id_is_key_witness :
    Reachable worldStarted ∧
    (∀ b s k r, inFlightAt worldStarted b s k = some r → r.Id = k) ∧
    inFlightAt worldStarted "10.0.0.1:80" "10.0.0.9:5000" (Itoa 1) = some requestOne ∧
    requestOne.Id = Itoa 1 ∧
    requestsOf (readUpdate worldStarted "10.0.0.9:5000" 2000 finishOne.update)
        "10.0.0.1:80" "10.0.0.9:5000"
      = (requestsOf worldStarted "10.0.0.1:80" "10.0.0.9:5000").erase (Itoa 1) :=
  ⟨reachable_worldStarted, (stored_id_is_key worldStarted reachable_worldStarted).1,
    by decide, by decide,
    ((stored_id_is_key worldStarted reachable_worldStarted).2 "10.0.0.9:5000" 2000
      finishOne.update requestOne (by decide) (by decide)).1⟩

/-- C19: an update referencing backend `u.B` from sender `s` leaves the entry of every other
backend unchanged and, within `u.B`, leaves the `Ipport` and the request map of every other
sender unchanged; only the request map of `(u.B, s)` and the `Completed` sequence of `u.B`
can differ after the update. -/
theorem update_frame (W : BackendMap) (s : String) (now : Int) (u : BackendUpdate) :
    (∀ b1, b1 ≠ u.B → (readUpdate W s now u).lookup b1 = W.lookup b1) ∧
    (∀ b1 s1, s1 ≠ s → requestsOf (readUpdate W s now u) b1 s1 = requestsOf W b1 s1) ∧
    (∀ backend backend1, W.lookup u.B = some backend →
      (readUpdate W s now u).lookup u.B = some backend1 →
      backend1.Ipport = backend.Ipport ∧
      ∀ s1, s1 ≠ s → backend1.InFlight.lookup s1 = backend.InFlight.lookup s1) := by
  refine ⟨fun b1 hb => lookup_readUpdate_of_ne W s now u b1 hb,
    fun b1 s1 hs => requestsOf_readUpdate_of_ne_sender W s now u b1 s1 hs, ?_⟩
  intro backend backend1 hb hb1
  by_cases hB : u.B.length = 0
  · rw [readUpdate_empty_B W s now u hB, hb] at hb1
    cases hb1
    exact ⟨rfl, fun _ _ => rfl⟩
  · rw [lookup_readUpdate_self W s now u hB, getBackend_of_lookup W _ backend hb] at hb1
    cases hb1
    refine ⟨by rw [ipport_switchUpdate, ipport_ensureReceiver], ?_⟩
    intro s1 hs
    rw [lookup_inFlight_switchUpdate_of_ne _ s s1 now _ u hs,
      lookup_inFlight_ensureReceiver_of_ne _ s s1 hs]

/-- C20: after any decoded update with a non-empty backend identity `B` from sender `s`,
whatever its kind byte and whether or not it is then discarded, the registry holds an entry
for `B` whose in-flight map has a request map for `s`; its `Ipport` is `B` (on every reachable
registry, and whenever the entry has just been built); a backend that has just been built
starts as `Ipport = B`, empty `Completed`, in-flight map holding only the empty map for `s`,
and after the iteration it still has an empty `Completed` and no request map for any other
sender (the map for `s` holding a request only if the update was a started one). -/
theorem backend_and_sender_map_built (W : BackendMap) (s : String) (now : Int)
    (u : BackendUpdate) (hB : u.B.length ≠ 0) :
    ∃ backend m, (readUpdate W s now u).lookup u.B = some backend ∧
      backend.InFlight.lookup s = some m ∧
      (Reachable W → backend.Ipport = u.B) ∧
      (W.lookup u.B = none →
        ensureReceiver (getBackend W u.B) s
          = { Ipport := u.B, Completed := [], InFlight := Finmap.singleton s ∅ } ∧
        backend.Ipport = u.B ∧ backend.Completed = [] ∧
        (∀ s1, s1 ≠ s → backend.InFlight.lookup s1 = none) ∧
        (u.C ≠ 1 → backend
          = { Ipport := u.B, Completed := [], InFlight := Finmap.singleton s ∅ })) := by
  have hl := lookup_readUpdate_self W s now u hB
  obtain ⟨m0, hm0⟩ := lookup_inFlight_ensureReceiver_self (getBackend W u.B) s
  obtain ⟨m, hm⟩ := lookup_inFlight_switchUpdate_self _ s now (Itoa u.I) u m0 hm0
  refine ⟨_, m, hl, hm, ?_, ?_⟩
  · intro hW
    exact ipportIsKey_of_reachable _ (Reachable.step s now u hW) u.B _ hl
  · intro hnone
    rw [getBackend_of_absent W _ hnone]
    refine ⟨ensureReceiver_newBackend u.B s, ?_, completed_switchUpdate_newBackend _ _ _ _ _,
      ?_, ?_⟩
    · rw [ipport_switchUpdate, ipport_ensureReceiver]; rfl
    · intro s1 hs
      rw [lookup_inFlight_switchUpdate_of_ne _ s s1 now _ u hs,
        lookup_inFlight_ensureReceiver_of_ne _ s s1 hs]
      rfl
    · intro h1
      rw [switchUpdate_newBackend_not_start u.B s now _ u h1, ensureReceiver_newBackend]

theorem backend_and_sender_map_built_witness :
    ("10.0.0.1:80" : String).length ≠ 0 ∧
    ∃ backend m, (readUpdate World "10.0.0.9:5000" 0
        ⟨7, "10.0.0.1:80", 2, Float64.zero, 200, ""⟩).lookup "10.0.0.1:80" = some backend ∧
      backend.InFlight.lookup "10.0.0.9:5000" = some m ∧
      (Reachable World → backend.Ipport = "10.0.0.1:80") ∧
      (World.lookup "10.0.0.1:80" = none →
        ensureReceiver (getBackend World "10.0.0.1:80") "10.0.0.9:5000"
          = { Ipport := "10.0.0.1:80", Completed := [],
              InFlight := Finmap.singleton "10.0.0.9:5000" ∅ } ∧
        backend.Ipport = "10.0.0.1:80" ∧ backend.Completed = [] ∧
        (∀ s1, s1 ≠ "10.0.0.9:5000" → backend.InFlight.lookup s1 = none) ∧
        ((2 : Nat) ≠ 1 → backend
          = { Ipport := "10.0.0.1:80", Completed := [],
              InFlight := Finmap.singleton "10.0.0.9:5000" ∅ })) :=
  ⟨by decide,
    backend_and_sender_map_built World "10.0.0.9:5000" 0
      ⟨7, "10.0.0.1:80", 2, Float64.zero, 200, ""⟩ (by decide)⟩

/-- C13, as stated, fails: when `json.Marshal` returns an error the handler does not answer
the caller at all; it ends the process through `log.Fatalf`. -/
theorem marshal_error_is_fatal :
    writeWorld (fun _ => Except.error "unsupported type") worldFinished 5000
      = Served.fatal "Error writing JSON: unsupported type" ∧
    ∀ headers body,
      writeWorld (fun _ => Except.error "unsupported type") worldFinished 5000
        ≠ Served.written headers body := by
  constructor
  · rfl
  · intro headers body h
    simp [writeWorld] at h

/-- C13, amended: when serializing the snapshot fails in `writeWorld`, the handler logs
`Error writing JSON: <error>` through `log.Fatalf`, which terminates the process; no
response, and so no server error, is written to the caller.  (When serialization succeeds
the handler sets the two cross-origin headers and writes the bytes.) -/
theorem marshal_error_terminates (Marshal : JsonWorld → Except String (List Nat))
    (W : BackendMap) (now : Int) (err : String)
    (h : Marshal { World := W, CurrentTime := now } = Except.error err) :
    writeWorld Marshal W now = Served.fatal ("Error writing JSON: " ++ err) ∧
    (∀ headers body, writeWorld Marshal W now ≠ Served.written headers body) ∧
    (∀ (Marshal1 : JsonWorld → Except String (List Nat)) (bytes : List Nat),
      Marshal1 { World := W, CurrentTime := now } = Except.ok bytes →
      writeWorld Marshal1 W now
        = Served.written
            [("Access-Control-Allow-Origin", "*"), ("Access-Control-Max-Age", "3600")] bytes) := by
  refine ⟨by simp [writeWorld, h], ?_, ?_⟩
  · intro headers body hw
    simp [writeWorld, h] at hw
  · intro Marshal1 bytes h1
    simp [writeWorld, h1]

theorem marshal_error_terminates_witness :
    (fun _ => Except.error "unsupported type" : JsonWorld → Except String (List Nat))
        { World := worldFinished, CurrentTime := 5000 } = Except.error "unsupported type" ∧
    writeWorld (fun _ => Except.error "unsupported type") worldFinished 5000
      = Served.fatal ("Error writing JSON: " ++ "unsupported type") :=
  ⟨rfl, (marshal_error_terminates (fun _ => Except.error "unsupported type") worldFinished 5000
    "unsupported type" rfl).1⟩

/-- C15: on every registry the loop can reach, for every sender address and every decoded
update (any kind byte, any integer id and status, any strings), the iteration completes
without a nil dereference, without a write through a nil map and without a fatal exit, and
returns to the receive loop with a registry that is again reachable; no backend pointer and
no in-flight request stored in a reachable registry is nil, so the field writes of the
finished branch are on a valid request; a finished update whose lookup misses takes the
branch that logs `Request Id ... unknown.` and goes on; and the registry the iteration leaves
is the one `readUpdate` computes on the by-value reading of the registry. -/
theorem apply_step_never_faults (W : BackendMapN) (h : ReachableN W) (addrstr : String)
    (now : Int) (update : BackendUpdate) :
    (∃ W1 line, readUpdateN W addrstr now update = Except.ok (W1, line) ∧ ReachableN W1) ∧
    (∀ b p, W.lookup b = some p → p ≠ none) ∧
    (∀ b backend receivers s m k p, W.lookup b = some (some backend) →
      backend.InFlight = some receivers → receivers.lookup s = some (some m) →
      m.lookup k = some p → p ≠ none) ∧
    (update.B.length ≠ 0 → update.C = 2 →
      (∀ backend, W.lookup update.B = some (some backend) →
        lookupN (requestsN backend addrstr) (Itoa update.I) = none) →
      ∃ W1, readUpdateN W addrstr now update
        = Except.ok (W1, some (LogLine.unknownId (Itoa update.I)))) ∧
    (∃ W0, Reachable W0 ∧ Represents W W0 ∧
      ∃ W1 line, readUpdateN W addrstr now update = Except.ok (W1, line) ∧
        Represents W1 (readUpdate W0 addrstr now update)) := by
  have hS := soundWorld_of_reachableN W h
  obtain ⟨W1, line, hok, _⟩ := readUpdateN_ok W addrstr now update hS
  refine ⟨⟨W1, line, hok, ReachableN.step addrstr now update h hok⟩, ?_, ?_, ?_, ?_⟩
  rotate_right
  · obtain ⟨W0, hW0, hrep⟩ := represents_of_reachableN W h
    exact ⟨W0, hW0, hrep, readUpdateN_represents W W0 addrstr now update hrep⟩
  · intro b p hb hp
    obtain ⟨backend, hbe, _⟩ := hS b p hb
    rw [hbe] at hp
    cases hp
  · intro b backend receivers s m k p hb hfl hs hk
    obtain ⟨backend0, hbe, receivers0, hfl0, hsound⟩ := hS b _ hb
    cases hbe
    rw [hfl] at hfl0
    cases hfl0
    obtain ⟨m0, hm0, hreq⟩ := hsound s _ hs
    cases hm0
    exact hreq k p hk
  · intro hB hC hmiss
    have hptr : ∃ backend,
        (match W.lookup update.B with
          | some p => p
          | none => some { Ipport := update.B, Completed := [], InFlight := some ∅ })
          = some backend ∧ SoundBackend backend ∧
          lookupN (requestsN backend addrstr) (Itoa update.I) = none := by
      cases hl : W.lookup update.B with
      | some p =>
        obtain ⟨backend, hp, hs⟩ := hS update.B p hl
        subst hp
        exact ⟨backend, rfl, hs, hmiss backend hl⟩
      | none =>
        refine ⟨_, rfl, ⟨∅, rfl, ?_⟩, ?_⟩
        · intro s requests hs
          rw [Finmap.lookup_empty] at hs
          cases hs
        · simp only [requestsN, Finmap.lookup_empty, lookupN]
    obtain ⟨backend, hp, hs, hl0⟩ := hptr
    obtain ⟨b1, he, _, _⟩ := ensureReceiverN_ok backend addrstr hs
    have hl1 : lookupN (requestsN b1 addrstr) (Itoa update.I) = none := by
      rw [lookupN_ensureReceiverN backend b1 addrstr _ he]; exact hl0
    have hsw := switchUpdateN_finish_miss b1 addrstr now (Itoa update.I) update hC hl1
    refine ⟨W.insert update.B (some b1), ?_⟩
    simp only [readUpdateN, hB, if_false, hp, he, hsw]

theorem apply_step_never_faults_witness :
    ReachableN worldStartedN ∧
    ∃ W1 line, readUpdateN worldStartedN finishOne.addr finishOne.now finishOne.update
      = Except.ok (W1, line) ∧ ReachableN W1 :=
  ⟨reachable_worldStartedN,
    (apply_step_never_faults worldStartedN reachable_worldStartedN finishOne.addr finishOne.now
      finishOne.update).1⟩

end BackendStatus
